import Mathlib

/-!
Verification of the CCAR-workflow document-synchronization core.

This file gives a shallow embedding of the state-storage, change-detection,
filename, download-sync, remote-mirror and JS-export logic of the repository
(`src/storage.py`, `src/crawler.py`, `src/main.py`, `src/r2_uploader.py`) and
proves the specified properties about it.

Modelling conventions:
 * Python `dict`s are association lists (`List (key × value)`) with unique keys;
   `dict.get` is `lookupAssoc`, `dict[k] = v` is `setAssoc` (replace or append,
   preserving insertion order like CPython).
 * Python strings are Lean `String`s; character-level operations (`strip`,
   `lower`, slicing, `split`) are implemented over `String.data` so that they
   are structurally recursive and kernel-computable.
 * The filesystem is a map from path to file content (or byte size where only
   sizes matter); external collaborators (network fetch, object-store PUT)
   are oracle parameters, following the spec's component boundaries.
-/

/-- Association-list lookup, the model of Python `dict.get`. -/
def lookupAssoc {α β : Type} [DecidableEq α] : List (α × β) → α → Option β
  | [], _ => none
  | (k', v) :: rest, k => if k' = k then some v else lookupAssoc rest k

/-- Association-list update, the model of Python `dict[k] = v`: replaces the
value in place if the key exists, otherwise appends (CPython insertion order). -/
def setAssoc {α β : Type} [DecidableEq α] : List (α × β) → α → β → List (α × β)
  | [], k, v => [(k, v)]
  | (k', v') :: rest, k, v =>
    if k' = k then (k, v) :: rest else (k', v') :: setAssoc rest k v

theorem lookupAssoc_setAssoc_self {α β : Type} [DecidableEq α]
    (m : List (α × β)) (k : α) (v : β) :
    lookupAssoc (setAssoc m k v) k = some v := by
  induction m with
  | nil => simp [setAssoc, lookupAssoc]
  | cons hd tl ih =>
    obtain ⟨k', v'⟩ := hd
    by_cases h : k' = k <;> simp [setAssoc, lookupAssoc, h, ih]

theorem lookupAssoc_setAssoc_ne {α β : Type} [DecidableEq α]
    (m : List (α × β)) (k k' : α) (v : β) (h : k ≠ k') :
    lookupAssoc (setAssoc m k v) k' = lookupAssoc m k' := by
  induction m with
  | nil => simp [setAssoc, lookupAssoc, h]
  | cons hd tl ih =>
    obtain ⟨k0, v0⟩ := hd
    by_cases h0 : k0 = k
    · subst h0
      simp [setAssoc, lookupAssoc, h]
    · by_cases h1 : k0 = k'
      · simp [setAssoc, lookupAssoc, h0, h1, Ne.symm h]
      · simp [setAssoc, lookupAssoc, h0, h1, ih]

/-- Characters that Python `str.strip()` removes (ASCII whitespace). -/
def pyIsSpace (c : Char) : Bool :=
  c = ' ' ∨ c = '\t' ∨ c = '\n' ∨ c = '\r' ∨ c = '\x0b' ∨ c = '\x0c'

/-- Remove trailing whitespace from a character list. -/
def dropTrailWS (l : List Char) : List Char :=
  (l.reverse.dropWhile pyIsSpace).reverse

/-- Remove leading and trailing whitespace (Python `str.strip()`) on lists. -/
def trimWS (l : List Char) : List Char :=
  dropTrailWS (l.dropWhile pyIsSpace)

/-- Python `str.strip()`. -/
def pyStrip (s : String) : String := ⟨trimWS s.data⟩

/-- Python `str.lower()` (ASCII case folding, matching the data in play). -/
def pyLower (s : String) : String := ⟨s.data.map Char.toLower⟩

/-- Python `s.startswith(p)`. -/
def strStartsWith (s p : String) : Bool := p.data.isPrefixOf s.data

/-- Python `s.endswith(p)`. -/
def strEndsWith (s p : String) : Bool := p.data.isSuffixOf s.data

/-- Python character slicing `s[:n]`. -/
def strTake (s : String) (n : Nat) : String := ⟨s.data.take n⟩

/-- Python `len(s)` (a count of characters). -/
def strLen (s : String) : Nat := s.data.length

theorem strAppend_data (s t : String) : (s ++ t).data = s.data ++ t.data := rfl

/-- A string made of whitespace only. -/
def AllWS (s : String) : Prop := ∀ c ∈ s.data, pyIsSpace c = true

instance (s : String) : Decidable (AllWS s) := by
  unfold AllWS; infer_instance

theorem dropWhile_ws_append {w l : List Char} (hw : ∀ c ∈ w, pyIsSpace c = true) :
    (w ++ l).dropWhile pyIsSpace = l.dropWhile pyIsSpace := by
  induction w with
  | nil => rfl
  | cons c w ih =>
    have hc : pyIsSpace c = true := hw c (by simp)
    simp only [List.cons_append, List.dropWhile_cons, hc, if_true]
    exact ih (fun c hc => hw c (by simp [hc]))

theorem dropTrailWS_append_ws {l w : List Char} (hw : ∀ c ∈ w, pyIsSpace c = true) :
    dropTrailWS (l ++ w) = dropTrailWS l := by
  unfold dropTrailWS
  rw [List.reverse_append, dropWhile_ws_append (by simp_all)]

theorem dropWhile_append_cases (p : Char → Bool) (a b : List Char) :
    (a ++ b).dropWhile p =
      (if a.dropWhile p = [] then b.dropWhile p else a.dropWhile p ++ b) := by
  induction a with
  | nil => simp
  | cons c a ih =>
    by_cases hc : p c = true
    · simpa [List.dropWhile_cons, hc] using ih
    · simp [List.dropWhile_cons, hc]

theorem trimWS_pad {w1 w2 : List Char} (l : List Char)
    (h1 : ∀ c ∈ w1, pyIsSpace c = true) (h2 : ∀ c ∈ w2, pyIsSpace c = true) :
    trimWS (w1 ++ l ++ w2) = trimWS l := by
  unfold trimWS
  rw [List.append_assoc, dropWhile_ws_append h1]
  rw [dropWhile_append_cases]
  by_cases h : l.dropWhile pyIsSpace = []
  · have hall : ∀ c ∈ l.dropWhile pyIsSpace, pyIsSpace c = true := by
      simp [h]
    rw [if_pos h, h]
    have : w2.dropWhile pyIsSpace = [] := by
      have := dropWhile_ws_append (l := ([] : List Char)) h2
      simpa using this
    simp [dropTrailWS, this]
  · rw [if_neg h, dropTrailWS_append_ws h2]

/-- `pyStrip` ignores leading/trailing whitespace padding. -/
theorem pyStrip_pad (core w1 w2 : String) (h1 : AllWS w1) (h2 : AllWS w2) :
    pyStrip (w1 ++ core ++ w2) = pyStrip core := by
  unfold pyStrip
  have : (w1 ++ core ++ w2).data = w1.data ++ core.data ++ w2.data := by
    simp [strAppend_data]
  rw [this, trimWS_pad core.data h1 h2]

/- ================================================================
   Document model (`src/crawler.py`, dataclass `Document`) and the
   known-document records stored in the state snapshot (plain dicts,
   read through `_doc_field_value` in `src/storage.py`).
   ================================================================ -/

/-- The `Document` dataclass of `src/crawler.py`. -/
structure Document where
  title : String
  url : String
  category : String
  category_id : String
  doc_number : String
  office_unit : String
  sign_date : String := ""
  publish_date : String := ""
  validity : String := ""
  pdf_url : String := ""
  has_pdf : Bool := false
deriving DecidableEq, Repr

/-- A known-document record from the persisted snapshot: a dict whose string
fields may be missing or `None` (both modelled as `none`). -/
structure KnownDoc where
  title : Option String := none
  url : Option String := none
  doc_number : Option String := none
  office_unit : Option String := none
  sign_date : Option String := none
  publish_date : Option String := none
  validity : Option String := none
deriving DecidableEq, Repr

/-- The fields of `TRACKED_CHANGE_FIELDS` in `src/storage.py`. -/
inductive TrackedField where
  | title | doc_number | validity | office_unit | sign_date | publish_date
deriving DecidableEq, Repr

/-- `TRACKED_CHANGE_FIELDS`, in source order. -/
def TRACKED_CHANGE_FIELDS : List TrackedField :=
  [.title, .doc_number, .validity, .office_unit, .sign_date, .publish_date]

/-- Field access on a known-document dict (`doc_data.get(field_name, "")`). -/
def KnownDoc.getField (k : KnownDoc) : TrackedField → Option String
  | .title => k.title
  | .doc_number => k.doc_number
  | .validity => k.validity
  | .office_unit => k.office_unit
  | .sign_date => k.sign_date
  | .publish_date => k.publish_date

/-- Field access on a `Document` (`getattr(doc_data, field_name, "")`). -/
def Document.getTracked (d : Document) : TrackedField → String
  | .title => d.title
  | .doc_number => d.doc_number
  | .validity => d.validity
  | .office_unit => d.office_unit
  | .sign_date => d.sign_date
  | .publish_date => d.publish_date

/-- `_doc_field_value` of `src/storage.py`: `str(value or "").strip()`, with a
missing key or `None` (and the falsy empty string) collapsing to `""`. -/
def docFieldValue (v : Option String) : String := pyStrip (v.getD "")

/-- `_doc_signature` for a known-document dict. -/
def docSignatureK (k : KnownDoc) : List String :=
  TRACKED_CHANGE_FIELDS.map (fun f => docFieldValue (k.getField f))

/-- `_doc_signature` for a current `Document`. -/
def docSignatureD (d : Document) : List String :=
  TRACKED_CHANGE_FIELDS.map (fun f => docFieldValue (some (d.getTracked f)))

/-- The normalized url key of a known document (`_doc_field_value(doc, "url")`). -/
def knownUrl (k : KnownDoc) : String := docFieldValue k.url

/- ================================================================
   Change detection (`Storage.detect_changes`, `src/storage.py` 410-464).
   The loaded state snapshot is passed explicitly (in the source it comes
   from `self.load()`).
   ================================================================ -/

/-- The `ChangeResult` dataclass. -/
structure ChangeResult where
  new_documents : List (String × List Document) := []
  updated_documents : List (String × List Document) := []
deriving DecidableEq, Repr

/-- The `known_by_url` dict built per category: keyed by the normalized url of
each known document, skipping empty urls; a later duplicate overwrites. -/
def buildKnownByUrl (known : List KnownDoc) : List (String × KnownDoc) :=
  known.foldl
    (fun m k => if knownUrl k = "" then m else setAssoc m (knownUrl k) k) []

/-- The classification loop body of `detect_changes`: a current document with
no known counterpart is new; one whose counterpart's signature differs is
updated; all others are dropped. Result: `(new_docs, changed_docs)`, in
input order. -/
def classifyDocs (kb : List (String × KnownDoc)) : List Document → List Document × List Document
  | [] => ([], [])
  | d :: rest =>
    let r := classifyDocs kb rest
    match lookupAssoc kb d.url with
    | none => (d :: r.1, r.2)
    | some k => if docSignatureK k ≠ docSignatureD d then (r.1, d :: r.2) else r

/-- The `new_docs` list a category contributes to `new_documents`
(`if new_docs: new_documents[cat_id] = new_docs`). -/
def detectNewEntry (stateDocs : List (String × List KnownDoc))
    (c : String) (docs : List Document) : Option (List Document) :=
  let ns := (classifyDocs (buildKnownByUrl ((lookupAssoc stateDocs c).getD [])) docs).1
  if ns = [] then none else some ns

/-- The `changed_docs` list a category contributes to `updated_documents`. -/
def detectUpdEntry (stateDocs : List (String × List KnownDoc))
    (c : String) (docs : List Document) : Option (List Document) :=
  let cs := (classifyDocs (buildKnownByUrl ((lookupAssoc stateDocs c).getD [])) docs).2
  if cs = [] then none else some cs

/-- `Storage.detect_changes`: per category of the current map, classify against
the known snapshot; a category appears in an output map only when its list is
nonempty (the loop appends `(cat_id, docs)` exactly in that case). -/
def detect_changes (stateDocs : List (String × List KnownDoc))
    (current : List (String × List Document)) : ChangeResult :=
  { new_documents := current.filterMap (fun kv =>
      (detectNewEntry stateDocs kv.1 kv.2).map (fun x => (kv.1, x))),
    updated_documents := current.filterMap (fun kv =>
      (detectUpdEntry stateDocs kv.1 kv.2).map (fun x => (kv.1, x))) }

/-- Documents reported new for a category (`result.new_documents.get(cat, [])`). -/
def resultNew (r : ChangeResult) (cat : String) : List Document :=
  (lookupAssoc r.new_documents cat).getD []

/-- Documents reported updated for a category. -/
def resultUpd (r : ChangeResult) (cat : String) : List Document :=
  (lookupAssoc r.updated_documents cat).getD []

/- Helper lemmas about classification and the known-by-url dict. -/

theorem classifyDocs_eq_filter (kb : List (String × KnownDoc)) (docs : List Document) :
    classifyDocs kb docs =
      (docs.filter (fun d => (lookupAssoc kb d.url).isNone),
       docs.filter (fun d =>
         match lookupAssoc kb d.url with
         | some k => decide (docSignatureK k ≠ docSignatureD d)
         | none => false)) := by
  induction docs with
  | nil => simp [classifyDocs]
  | cons d rest ih =>
    simp only [classifyDocs, ih, List.filter_cons]
    cases h : lookupAssoc kb d.url with
    | none => simp [h]
    | some k =>
      by_cases hs : docSignatureK k ≠ docSignatureD d
      · simp [h, hs]
      · simp [h, hs]

theorem mem_classify_new {kb : List (String × KnownDoc)} {docs : List Document}
    {d : Document} :
    d ∈ (classifyDocs kb docs).1 ↔ d ∈ docs ∧ lookupAssoc kb d.url = none := by
  rw [classifyDocs_eq_filter]
  simp [List.mem_filter, Option.isNone_iff_eq_none]

theorem mem_classify_upd {kb : List (String × KnownDoc)} {docs : List Document}
    {d : Document} :
    d ∈ (classifyDocs kb docs).2 ↔
      d ∈ docs ∧ ∃ k, lookupAssoc kb d.url = some k ∧ docSignatureK k ≠ docSignatureD d := by
  rw [classifyDocs_eq_filter]
  simp only [List.mem_filter]
  constructor
  · rintro ⟨hm, hp⟩
    refine ⟨hm, ?_⟩
    cases h : lookupAssoc kb d.url with
    | none => rw [h] at hp; simp at hp
    | some k =>
      rw [h] at hp
      exact ⟨k, rfl, by simpa using hp⟩
  · rintro ⟨hm, k, hk, hs⟩
    exact ⟨hm, by rw [hk]; simpa using hs⟩

theorem lookup_buildKnownByUrl_aux (known : List KnownDoc)
    (acc : List (String × KnownDoc)) (u : String) :
    lookupAssoc
        (known.foldl (fun m k => if knownUrl k = "" then m else setAssoc m (knownUrl k) k) acc) u
      = none
    ↔ lookupAssoc acc u = none ∧ ∀ k ∈ known, knownUrl k = "" ∨ knownUrl k ≠ u := by
  induction known generalizing acc with
  | nil => simp
  | cons k0 rest ih =>
    simp only [List.foldl_cons, List.mem_cons]
    by_cases h0 : knownUrl k0 = ""
    · rw [if_pos h0, ih]
      constructor
      · rintro ⟨ha, hrest⟩
        exact ⟨ha, fun k hk => by
          rcases hk with rfl | hk
          · exact Or.inl h0
          · exact hrest k hk⟩
      · rintro ⟨ha, hall⟩
        exact ⟨ha, fun k hk => hall k (Or.inr hk)⟩
    · rw [if_neg h0, ih]
      by_cases hu : knownUrl k0 = u
      · subst hu
        simp [lookupAssoc_setAssoc_self, h0]
      · rw [lookupAssoc_setAssoc_ne _ _ _ _ hu]
        constructor
        · rintro ⟨ha, hrest⟩
          exact ⟨ha, fun k hk => by
            rcases hk with rfl | hk
            · exact Or.inr hu
            · exact hrest k hk⟩
        · rintro ⟨ha, hall⟩
          exact ⟨ha, fun k hk => hall k (Or.inr hk)⟩

/-- The per-category lookup misses exactly when no known document in the
category has a nonempty normalized url equal to the current document's url. -/
theorem lookup_buildKnownByUrl_none {known : List KnownDoc} {u : String} :
    lookupAssoc (buildKnownByUrl known) u = none
    ↔ ∀ k ∈ known, knownUrl k = "" ∨ knownUrl k ≠ u := by
  unfold buildKnownByUrl
  rw [lookup_buildKnownByUrl_aux]
  simp [lookupAssoc]

theorem lookup_filterMap_keyed_none {β γ : Type} (l : List (String × β))
    (g : String → β → Option γ) (k : String)
    (habs : ∀ p ∈ l, p.1 ≠ k) :
    lookupAssoc (l.filterMap (fun kv => (g kv.1 kv.2).map (fun x => (kv.1, x)))) k = none := by
  induction l with
  | nil => rfl
  | cons hd tl ih =>
    obtain ⟨k0, b0⟩ := hd
    have hk0 : k0 ≠ k := habs (k0, b0) (by simp)
    cases hg : g k0 b0 with
    | none =>
      simp only [List.filterMap_cons, hg, Option.map_none']
      exact ih (fun p hp => habs p (by simp [hp]))
    | some x =>
      simp only [List.filterMap_cons, hg, Option.map_some']
      simp only [lookupAssoc, if_neg hk0]
      exact ih (fun p hp => habs p (by simp [hp]))

/-- Lookup in a key-preserving `filterMap` of a dict with unique keys. -/
theorem lookup_filterMap_keyed {β γ : Type} (l : List (String × β))
    (g : String → β → Option γ) (k : String)
    (hn : (l.map Prod.fst).Nodup) :
    lookupAssoc (l.filterMap (fun kv => (g kv.1 kv.2).map (fun x => (kv.1, x)))) k
      = (lookupAssoc l k).bind (g k) := by
  induction l with
  | nil => rfl
  | cons hd tl ih =>
    obtain ⟨k0, b0⟩ := hd
    simp only [List.map_cons, List.nodup_cons] at hn
    obtain ⟨hk0notin, hn'⟩ := hn
    by_cases hk : k0 = k
    · subst hk
      rw [show lookupAssoc ((k0, b0) :: tl) k0 = some b0 from by simp [lookupAssoc],
        Option.some_bind]
      cases hg : g k0 b0 with
      | none =>
        simp only [List.filterMap_cons, hg, Option.map_none']
        exact lookup_filterMap_keyed_none tl g k0 (by
          intro p hp hpk
          exact hk0notin (by
            subst hpk
            exact List.mem_map_of_mem Prod.fst hp))
      | some x =>
        simp [List.filterMap_cons, hg, lookupAssoc]
    · simp only [lookupAssoc, if_neg hk]
      cases hg : g k0 b0 with
      | none =>
        simp only [List.filterMap_cons, hg, Option.map_none']
        exact ih hn'
      | some x =>
        simp only [List.filterMap_cons, hg, Option.map_some']
        simp only [lookupAssoc, if_neg hk]
        exact ih hn'

theorem resultNew_lookup (stateDocs : List (String × List KnownDoc))
    (current : List (String × List Document)) (cat : String)
    (hn : (current.map Prod.fst).Nodup) :
    resultNew (detect_changes stateDocs current) cat =
      match lookupAssoc current cat with
      | none => []
      | some docs =>
          (classifyDocs (buildKnownByUrl ((lookupAssoc stateDocs cat).getD [])) docs).1 := by
  unfold resultNew detect_changes
  simp only
  rw [lookup_filterMap_keyed current (detectNewEntry stateDocs) cat hn]
  cases h : lookupAssoc current cat with
  | none => rfl
  | some docs =>
    simp only [Option.some_bind, detectNewEntry]
    split <;> simp_all

theorem resultUpd_lookup (stateDocs : List (String × List KnownDoc))
    (current : List (String × List Document)) (cat : String)
    (hn : (current.map Prod.fst).Nodup) :
    resultUpd (detect_changes stateDocs current) cat =
      match lookupAssoc current cat with
      | none => []
      | some docs =>
          (classifyDocs (buildKnownByUrl ((lookupAssoc stateDocs cat).getD [])) docs).2 := by
  unfold resultUpd detect_changes
  simp only
  rw [lookup_filterMap_keyed current (detectUpdEntry stateDocs) cat hn]
  cases h : lookupAssoc current cat with
  | none => rfl
  | some docs =>
    simp only [Option.some_bind, detectUpdEntry]
    split <;> simp_all

/-- C1: change detection classifies each current document per category solely
by url match and field signature: a current document whose url matches no
known document's (nonempty, normalized) url in its category is in
`new_documents`; one whose known counterpart has a different signature — the
ordered tuple of (title, doc_number, validity, office_unit, sign_date,
publish_date), which depends on no other field (in particular not on `url`,
`pdf_url` or `has_pdf`) — is in `updated_documents`; any other document is in
neither map. -/
theorem detect_changes_classification
    (stateDocs : List (String × List KnownDoc))
    (current : List (String × List Document)) (cat : String) (d : Document)
    (hn : (current.map Prod.fst).Nodup) :
    (d ∈ resultNew (detect_changes stateDocs current) cat ↔
       ∃ docs, lookupAssoc current cat = some docs ∧ d ∈ docs ∧
         lookupAssoc (buildKnownByUrl ((lookupAssoc stateDocs cat).getD [])) d.url = none)
    ∧ (d ∈ resultUpd (detect_changes stateDocs current) cat ↔
       ∃ docs k, lookupAssoc current cat = some docs ∧ d ∈ docs ∧
         lookupAssoc (buildKnownByUrl ((lookupAssoc stateDocs cat).getD [])) d.url = some k ∧
         docSignatureK k ≠ docSignatureD d)
    ∧ (lookupAssoc (buildKnownByUrl ((lookupAssoc stateDocs cat).getD [])) d.url = none ↔
       ∀ k ∈ (lookupAssoc stateDocs cat).getD [], knownUrl k = "" ∨ knownUrl k ≠ d.url)
    ∧ (∀ d' : Document, (∀ f, d.getTracked f = d'.getTracked f) →
       docSignatureD d = docSignatureD d') := by
  refine ⟨?_, ?_, lookup_buildKnownByUrl_none, ?_⟩
  · rw [resultNew_lookup stateDocs current cat hn]
    cases h : lookupAssoc current cat with
    | none => simp
    | some docs => simp [mem_classify_new]
  · rw [resultUpd_lookup stateDocs current cat hn]
    cases h : lookupAssoc current cat with
    | none => simp
    | some docs =>
      rw [mem_classify_upd]
      constructor
      · rintro ⟨hm, k, hk, hs⟩
        exact ⟨docs, k, rfl, hm, hk, hs⟩
      · rintro ⟨docs', k, hd', hm, hk, hs⟩
        cases hd'
        exact ⟨hm, k, hk, hs⟩
  · intro d' hf
    unfold docSignatureD
    exact List.map_congr_left (fun f _ => by rw [hf f])

/-- Concrete snapshot for exercising change detection. -/
def c1Known : KnownDoc :=
  { title := some "Air Rules", url := some "http://a/1", doc_number := some "N1",
    validity := some "valid" }

/-- Concrete current documents for exercising change detection. -/
def c1DocA : Document :=
  { title := "Air Rules", url := "http://a/1", category := "c", category_id := "13",
    doc_number := "N1", office_unit := "", validity := "superseded" }

def c1DocB : Document :=
  { title := "New Doc", url := "http://a/2", category := "c", category_id := "13",
    doc_number := "N2", office_unit := "" }

def c1State : List (String × List KnownDoc) := [("13", [c1Known])]

def c1Current : List (String × List Document) := [("13", [c1DocA, c1DocB])]

theorem detect_changes_classification_witness :
    c1DocB ∈ resultNew (detect_changes c1State c1Current) "13" ∧
    c1DocA ∈ resultUpd (detect_changes c1State c1Current) "13" := by
  have hB := detect_changes_classification c1State c1Current "13" c1DocB (by decide)
  have hA := detect_changes_classification c1State c1Current "13" c1DocA (by decide)
  refine ⟨hB.1.mpr ⟨[c1DocA, c1DocB], by decide, by decide, by decide⟩, ?_⟩
  exact hA.2.1.mpr ⟨[c1DocA, c1DocB], c1Known, by decide, by decide, by decide, by decide⟩

/- Helper lemmas for determinism / iteration-order independence (C6). -/

theorem lookup_buildKnownByUrl_empty (known : List KnownDoc) :
    lookupAssoc (buildKnownByUrl known) "" = none := by
  rw [lookup_buildKnownByUrl_none]
  intro k _
  by_cases h : knownUrl k = ""
  · exact Or.inl h
  · exact Or.inr h

theorem lookup_buildKB_aux_sound (known : List KnownDoc)
    (acc : List (String × KnownDoc)) (u : String) (k : KnownDoc)
    (h : lookupAssoc
        (known.foldl (fun m k => if knownUrl k = "" then m else setAssoc m (knownUrl k) k) acc) u
      = some k) :
    (k ∈ known ∧ knownUrl k = u) ∨ lookupAssoc acc u = some k := by
  induction known generalizing acc with
  | nil => exact Or.inr h
  | cons k0 rest ih =>
    simp only [List.foldl_cons] at h
    rcases ih _ h with ⟨hmem, hurl⟩ | hacc
    · exact Or.inl ⟨List.mem_cons_of_mem _ hmem, hurl⟩
    · by_cases h0 : knownUrl k0 = ""
      · rw [if_pos h0] at hacc
        exact Or.inr hacc
      · rw [if_neg h0] at hacc
        by_cases hu : knownUrl k0 = u
        · rw [hu, lookupAssoc_setAssoc_self] at hacc
          cases hacc
          exact Or.inl ⟨List.mem_cons_self _ _, hu⟩
        · rw [lookupAssoc_setAssoc_ne _ _ _ _ hu] at hacc
          exact Or.inr hacc

theorem lookup_buildKB_aux_isSome_mono (known : List KnownDoc)
    (acc : List (String × KnownDoc)) (u : String)
    (h : (lookupAssoc acc u).isSome) :
    (lookupAssoc
        (known.foldl (fun m k => if knownUrl k = "" then m else setAssoc m (knownUrl k) k) acc)
        u).isSome := by
  induction known generalizing acc with
  | nil => exact h
  | cons k0 rest ih =>
    simp only [List.foldl_cons]
    apply ih
    by_cases h0 : knownUrl k0 = ""
    · rwa [if_pos h0]
    · rw [if_neg h0]
      by_cases hu : knownUrl k0 = u
      · rw [hu, lookupAssoc_setAssoc_self]; rfl
      · rwa [lookupAssoc_setAssoc_ne _ _ _ _ hu]

theorem lookup_buildKB_aux_isSome (known : List KnownDoc)
    (acc : List (String × KnownDoc)) (u : String) (k : KnownDoc)
    (hk : k ∈ known) (hurl : knownUrl k = u) (hne : u ≠ "") :
    (lookupAssoc
        (known.foldl (fun m k => if knownUrl k = "" then m else setAssoc m (knownUrl k) k) acc)
        u).isSome := by
  induction known generalizing acc with
  | nil => cases hk
  | cons k0 rest ih =>
    simp only [List.foldl_cons]
    rcases List.mem_cons.mp hk with rfl | hk'
    · apply lookup_buildKB_aux_isSome_mono
      rw [if_neg (hurl ▸ hne), hurl, lookupAssoc_setAssoc_self]
      rfl
    · exact ih _ hk'

/-- No two known documents in a category share a nonempty normalized url
(the state is written from per-category lists keyed by unique urls). -/
def UniqueKnownUrls (known : List KnownDoc) : Prop :=
  ∀ k1 ∈ known, ∀ k2 ∈ known, knownUrl k1 = knownUrl k2 → knownUrl k1 ≠ "" → k1 = k2

instance (known : List KnownDoc) : Decidable (UniqueKnownUrls known) := by
  unfold UniqueKnownUrls; infer_instance

theorem lookup_buildKB_unique {known : List KnownDoc} {u : String} {k : KnownDoc}
    (hu : UniqueKnownUrls known) :
    lookupAssoc (buildKnownByUrl known) u = some k ↔
      k ∈ known ∧ knownUrl k = u ∧ u ≠ "" := by
  constructor
  · intro h
    have hne : u ≠ "" := by
      rintro rfl
      rw [lookup_buildKnownByUrl_empty] at h
      cases h
    rcases lookup_buildKB_aux_sound known [] u k h with ⟨hmem, hurl⟩ | habs
    · exact ⟨hmem, hurl, hne⟩
    · cases habs
  · rintro ⟨hmem, hurl, hne⟩
    have hsome := lookup_buildKB_aux_isSome known [] u k hmem hurl hne
    obtain ⟨k', hk'⟩ := Option.isSome_iff_exists.mp hsome
    rcases lookup_buildKB_aux_sound known [] u k' hk' with ⟨hmem', hurl'⟩ | habs
    · have : k' = k := hu k' hmem' k hmem (by rw [hurl, hurl']) (by rw [hurl']; exact hne)
      rwa [this] at hk'
    · cases habs

theorem buildKB_perm_lookup {known known' : List KnownDoc}
    (hp : known.Perm known') (hu : UniqueKnownUrls known) (u : String) :
    lookupAssoc (buildKnownByUrl known) u = lookupAssoc (buildKnownByUrl known') u := by
  have hu' : UniqueKnownUrls known' := by
    intro k1 h1 k2 h2
    exact hu k1 (hp.mem_iff.mpr h1) k2 (hp.mem_iff.mpr h2)
  cases h : lookupAssoc (buildKnownByUrl known) u with
  | some k =>
    obtain ⟨hmem, hurl, hne⟩ := (lookup_buildKB_unique hu).mp h
    exact ((lookup_buildKB_unique hu').mpr ⟨hp.mem_iff.mp hmem, hurl, hne⟩).symm
  | none =>
    cases h' : lookupAssoc (buildKnownByUrl known') u with
    | none => rfl
    | some k =>
      obtain ⟨hmem, hurl, hne⟩ := (lookup_buildKB_unique hu').mp h'
      rw [(lookup_buildKB_unique hu).mpr ⟨hp.mem_iff.mpr hmem, hurl, hne⟩] at h
      cases h

theorem classifyDocs_congr {kb1 kb2 : List (String × KnownDoc)}
    (h : ∀ u, lookupAssoc kb1 u = lookupAssoc kb2 u) (docs : List Document) :
    classifyDocs kb1 docs = classifyDocs kb2 docs := by
  induction docs with
  | nil => rfl
  | cons d rest ih => simp only [classifyDocs, ih, h d.url]

/-- C6: change detection is deterministic and idempotent: running it twice on
the same inputs yields identical results, classification commutes with any
reordering of the current documents (up to the same reordering of the output
lists), and — whenever per-category urls are unique, which they are for any
state written by the program — the result does not depend on the iteration
order of the known snapshot. -/
theorem detect_changes_deterministic
    (stateDocs : List (String × List KnownDoc))
    (current : List (String × List Document))
    (known known' : List KnownDoc) (docs docs' : List Document) :
    detect_changes stateDocs current = detect_changes stateDocs current
    ∧ (docs.Perm docs' →
        ((classifyDocs (buildKnownByUrl known) docs).1.Perm
            (classifyDocs (buildKnownByUrl known) docs').1
        ∧ (classifyDocs (buildKnownByUrl known) docs).2.Perm
            (classifyDocs (buildKnownByUrl known) docs').2))
    ∧ (known.Perm known' → UniqueKnownUrls known →
        classifyDocs (buildKnownByUrl known) docs = classifyDocs (buildKnownByUrl known') docs) := by
  refine ⟨rfl, ?_, ?_⟩
  · intro hp
    rw [classifyDocs_eq_filter, classifyDocs_eq_filter]
    exact ⟨hp.filter _, hp.filter _⟩
  · intro hp hu
    exact classifyDocs_congr (buildKB_perm_lookup hp hu) docs

/-- A second known document (distinct url) for the determinism witness. -/
def c6KnownB : KnownDoc :=
  { title := some "Other", url := some "http://a/9", doc_number := some "N9" }

theorem detect_changes_deterministic_witness :
    detect_changes c1State c1Current = detect_changes c1State c1Current
    ∧ ((classifyDocs (buildKnownByUrl [c1Known, c6KnownB]) [c1DocA, c1DocB]).1.Perm
          (classifyDocs (buildKnownByUrl [c1Known, c6KnownB]) [c1DocB, c1DocA]).1
      ∧ (classifyDocs (buildKnownByUrl [c1Known, c6KnownB]) [c1DocA, c1DocB]).2.Perm
          (classifyDocs (buildKnownByUrl [c1Known, c6KnownB]) [c1DocB, c1DocA]).2)
    ∧ classifyDocs (buildKnownByUrl [c1Known, c6KnownB]) [c1DocA, c1DocB]
        = classifyDocs (buildKnownByUrl [c6KnownB, c1Known]) [c1DocA, c1DocB] := by
  have h := detect_changes_deterministic c1State c1Current [c1Known, c6KnownB]
    [c6KnownB, c1Known] [c1DocA, c1DocB] [c1DocB, c1DocA]
  refine ⟨h.1, h.2.1 (List.Perm.swap _ _ _), ?_⟩
  exact h.2.2 (List.Perm.swap _ _ _) (by decide)

/-- C10: signature comparison is insensitive to surrounding whitespace and
missing values: every tracked field is coerced to a string (with a missing
key or `None` treated as `""`) and stripped before comparison, so a
known/current pair whose tracked fields differ only by leading/trailing
whitespace (or by `None` versus the empty string) has equal signatures and
the current document is classified unchanged — in neither output list. -/
theorem signature_whitespace_insensitive (k : KnownDoc) (d : Document)
    (h : ∀ f : TrackedField, ∃ core w1 w2 w3 w4 : String,
      AllWS w1 ∧ AllWS w2 ∧ AllWS w3 ∧ AllWS w4 ∧
      (k.getField f).getD "" = w1 ++ core ++ w2 ∧
      d.getTracked f = w3 ++ core ++ w4) :
    docSignatureK k = docSignatureD d
    ∧ ∀ (kb : List (String × KnownDoc)) (docs : List Document),
        lookupAssoc kb d.url = some k →
        d ∉ (classifyDocs kb docs).1 ∧ d ∉ (classifyDocs kb docs).2 := by
  have hsig : docSignatureK k = docSignatureD d := by
    unfold docSignatureK docSignatureD
    apply List.map_congr_left
    intro f _
    obtain ⟨core, w1, w2, w3, w4, a1, a2, a3, a4, e1, e2⟩ := h f
    unfold docFieldValue
    rw [e1, Option.getD_some, e2, pyStrip_pad core w1 w2 a1 a2,
      pyStrip_pad core w3 w4 a3 a4]
  refine ⟨hsig, fun kb docs hlook => ⟨?_, ?_⟩⟩
  · intro hmem
    obtain ⟨-, hnone⟩ := mem_classify_new.mp hmem
    rw [hlook] at hnone
    cases hnone
  · intro hmem
    obtain ⟨-, k', hk', hne⟩ := mem_classify_upd.mp hmem
    rw [hlook] at hk'
    cases hk'
    exact hne hsig

/-- Known/current pair differing only by whitespace padding and `None` vs
empty fields, for the C10 witness. -/
def c10Known : KnownDoc :=
  { title := some " CCAR-91R3 ", url := some "u", doc_number := some "N1",
    validity := some "有效", office_unit := none,
    sign_date := some "2024-01-01", publish_date := none }

def c10Doc : Document :=
  { title := "CCAR-91R3", url := "u", category := "c", category_id := "13",
    doc_number := "N1 ", office_unit := "", sign_date := " 2024-01-01",
    publish_date := "", validity := "有效" }

theorem signature_whitespace_insensitive_witness :
    docSignatureK c10Known = docSignatureD c10Doc
    ∧ c10Doc ∉ (classifyDocs [("u", c10Known)] [c10Doc]).1
    ∧ c10Doc ∉ (classifyDocs [("u", c10Known)] [c10Doc]).2 := by
  have h := signature_whitespace_insensitive c10Known c10Doc (by
    intro f
    cases f with
    | title => exact ⟨"CCAR-91R3", " ", " ", "", "", by decide, by decide, by decide,
        by decide, by decide, by decide⟩
    | doc_number => exact ⟨"N1", "", "", "", " ", by decide, by decide, by decide,
        by decide, by decide, by decide⟩
    | validity => exact ⟨"有效", "", "", "", "", by decide, by decide, by decide,
        by decide, by decide, by decide⟩
    | office_unit => exact ⟨"", "", "", "", "", by decide, by decide, by decide,
        by decide, by decide, by decide⟩
    | sign_date => exact ⟨"2024-01-01", "", "", " ", "", by decide, by decide, by decide,
        by decide, by decide, by decide⟩
    | publish_date => exact ⟨"", "", "", "", "", by decide, by decide, by decide,
        by decide, by decide, by decide⟩)
  exact ⟨h.1, h.2 [("u", c10Known)] [c10Doc] (by decide)⟩

/- ================================================================
   Atomic state save (`atomic_write_json`, `src/storage.py` 142-159).
   The serialized JSON text is a parameter (the bytes `json.dump`
   produces); the temporary file of one invocation is modelled as a
   dedicated slot, since `mkstemp` picks a fresh name.
   ================================================================ -/

/-- The files touched by one `atomic_write_json` call: the target file and
this call's temporary file. -/
structure AwFs where
  target : Option String
  temp : Option String
deriving DecidableEq, Repr

/-- Where, if anywhere, an execution of `atomic_write_json` raises. -/
inductive AwStep where
  /-- `tempfile.mkstemp` itself raises (before the `try` block). -/
  | failMkstemp
  /-- the write/flush/fsync raises after `k` characters reached the file. -/
  | failWrite (k : Nat)
  /-- `os.replace` raises; being atomic, it leaves the target untouched. -/
  | failReplace
  /-- no step raises. -/
  | complete
deriving DecidableEq, Repr

/-- `atomic_write_json`: create a temp file in the target's directory, write
the serialized data, flush+fsync, then `os.replace` over the target; the
`except` block removes the temp file (when it exists) and re-raises.
`.error` carries the filesystem state as the exception propagates. -/
def atomic_write_json (target : Option String) (serialized : String)
    (outcome : AwStep) : Except AwFs AwFs :=
  match outcome with
  | .failMkstemp => .error ⟨target, none⟩
  | .failWrite k =>
    -- temp created, then a partial write of a prefix, then the exception:
    -- the handler sees the temp file and removes it.
    let st : AwFs := ⟨target, some (strTake serialized k)⟩
    .error ⟨st.target, none⟩
  | .failReplace =>
    -- temp fully written and fsynced; `os.replace` raises atomically,
    -- leaving the target untouched; the handler removes the temp file.
    let st : AwFs := ⟨target, some serialized⟩
    .error ⟨st.target, none⟩
  | .complete =>
    -- temp fully written; `os.replace` moves the temp over the target.
    let st : AwFs := ⟨target, some serialized⟩
    .ok ⟨st.temp, none⟩

/-- C4: the state save is atomic: on success the target holds exactly the
serialized bytes and the temporary file is gone; for every execution in which
a step raises before (or at) the rename, the pre-existing target file is
byte-for-byte unchanged and the temporary file is removed. -/
theorem atomic_write_json_atomic (target : Option String) (serialized : String)
    (outcome : AwStep) :
    match atomic_write_json target serialized outcome with
    | .ok fs' => outcome = .complete ∧ fs'.target = some serialized ∧ fs'.temp = none
    | .error fs' => outcome ≠ .complete ∧ fs'.target = target ∧ fs'.temp = none := by
  cases outcome with
  | failMkstemp => exact ⟨by simp, rfl, rfl⟩
  | failWrite k => exact ⟨by simp, rfl, rfl⟩
  | failReplace => exact ⟨by simp, rfl, rfl⟩
  | complete => exact ⟨rfl, rfl, rfl⟩

/- ================================================================
   State load (`Storage.load`, `src/storage.py` 347-388) over a small
   JSON value model.
   ================================================================ -/

/-- JSON values (numbers restricted to integers, which suffices for the
state files this program reads and writes). -/
inductive JVal where
  | jnull
  | jbool (b : Bool)
  | jnum (n : Int)
  | jstr (s : String)
  | jarr (items : List JVal)
  | jobj (fields : List (String × JVal))

/-- `data.get(key)` on a parsed JSON object. -/
def jget (v : JVal) (key : String) : Option JVal :=
  match v with
  | .jobj fs => lookupAssoc fs key
  | _ => none

/-- `CATEGORIES` of `src/crawler.py`. -/
def CATEGORIES : List (String × String) :=
  [("9", "通知公告"), ("10", "政策发布"), ("11", "政策解读"), ("12", "统计数据"),
   ("47", "法律法规"), ("13", "民航规章"), ("14", "规范性文件"), ("15", "标准规范"),
   ("16", "对外关系"), ("17", "港澳台合作"), ("18", "国际公约"), ("19", "人事信息"),
   ("20", "财政信息"), ("21", "发展规划"), ("22", "重大项目"), ("23", "行政权力"),
   ("24", "政府公文"), ("25", "机构职能"), ("26", "对外政策"), ("27", "执法典型案例"),
   ("28", "建议提案答复"), ("29", "政府网站年度报表")]

/-- `LEGACY_STATE_KEYS` of `src/storage.py`, as (cat_id, state_key) pairs. -/
def LEGACY_STATE_KEYS : List (String × String) :=
  [("13", "regulations"), ("14", "normatives"), ("15", "standards")]

/-- `_load_legacy_documents`: collect per-category lists from the legacy flat
keys, then from cat-id keys (the latter overwriting). -/
def load_legacy_documents (data : JVal) : List (String × JVal) :=
  let m := LEGACY_STATE_KEYS.foldl
    (fun m kv => match jget data kv.2 with
      | some (.jarr l) => setAssoc m kv.1 (.jarr l)
      | _ => m) []
  CATEGORIES.foldl
    (fun m kv => match jget data kv.1 with
      | some (.jarr l) => setAssoc m kv.1 (.jarr l)
      | _ => m) m

/-- `_normalize_documents`: keep the entries whose value is a list. -/
def normalize_documents (raw : List (String × JVal)) : List (String × List JVal) :=
  raw.filterMap (fun kv => match kv.2 with
    | .jarr l => some (kv.1, l)
    | _ => none)

/-- The `StorageState` dataclass; `last_check` holds whatever JSON value the
file carried (a string in every state the program itself writes). -/
structure StorageState where
  last_check : JVal := .jstr ""
  documents : List (String × List JVal) := []

/-- How reading and parsing the state file went; the input to `load`. -/
inductive LoadSource where
  /-- the state file does not exist. -/
  | absent
  /-- opening/reading the file raised (caught by the generic handler). -/
  | readFailure
  /-- the file exists but `json.load` raised `JSONDecodeError`. -/
  | invalidJson
  /-- the file parsed to the given JSON value. -/
  | parsed (data : JVal)

/-- `Storage.load`: a missing file yields an empty snapshot; invalid JSON is
backed up to `{path}.corrupted.{timestamp}` and yields an empty snapshot; any
other read failure also yields an empty snapshot; a parsed file is normalized
(falling back to the legacy flat layout when `documents` is missing, not a
dict, or empty). Every branch returns — the whole body is inside
`try/except`, so the function never raises. The second component is the
quarantine path the corrupt file is copied to, if any. -/
def storage_load (src : LoadSource) (dataPath ts : String) :
    StorageState × Option String :=
  match src with
  | .absent => ({}, none)
  | .readFailure => ({}, none)
  | .invalidJson => ({}, some (dataPath ++ ".corrupted." ++ ts))
  | .parsed data =>
    let loaded := jget data "documents"
    let docsRaw : List (String × JVal) :=
      match loaded with
      | some (.jobj fs) =>
        match fs with
        | [] => load_legacy_documents data
        | _ => fs
      | _ => load_legacy_documents data
    ({ last_check := (jget data "last_check").getD (.jstr ""),
       documents := normalize_documents docsRaw }, none)

/-- C7: state load never raises (it is total, every branch of the source's
`try/except` returning a value) and never returns an error: a missing state
file yields the empty snapshot with no quarantine, and a file that is not
valid JSON is copied aside to the timestamped quarantine path
`{path}.corrupted.{timestamp}` and also yields the empty snapshot, so the run
proceeds as a first run. -/
theorem storage_load_total (dataPath ts : String) :
    storage_load .absent dataPath ts = ({}, none)
    ∧ storage_load .invalidJson dataPath ts =
        ({}, some (dataPath ++ ".corrupted." ++ ts))
    ∧ (storage_load .absent dataPath ts).1.documents = []
    ∧ (storage_load .invalidJson dataPath ts).1.documents = [] := by
  exact ⟨rfl, rfl, rfl, rfl⟩

/- ================================================================
   Local filename generation (`generate_filename`, `src/crawler.py`
   101-141).
   ================================================================ -/

/-- The characters `re.sub(r'[<>:"/\\|?*]', '_', ...)` replaces. -/
def illegalFilenameChars : List Char := ['<', '>', ':', '"', '/', '\\', '|', '?', '*']

/-- The inner `sanitize` of `generate_filename`. -/
def sanitize (s : String) : String :=
  ⟨s.data.map (fun c => if c ∈ illegalFilenameChars then '_' else c)⟩

/-- The `parts` list of `generate_filename`: an optional `{validity}!` prefix
(only when validity is nonempty and not `有效`), an optional document number,
and the title (or the placeholder `未命名文件`). -/
def filenameParts (document : Document) : List String :=
  let validity := pyStrip document.validity
  let p1 : List String :=
    if validity ≠ "" ∧ validity ≠ "有效" then [sanitize validity ++ "!"] else []
  let dn := sanitize (pyStrip document.doc_number)
  let p2 : List String := if dn ≠ "" then [dn] else []
  let title := sanitize (pyStrip document.title)
  let p3 : List String := [if title ≠ "" then title else "未命名文件"]
  p1 ++ p2 ++ p3

/-- `"".join(parts)`. -/
def joinParts (parts : List String) : String := ⟨(parts.map String.data).flatten⟩

/-- The normalized extension: stripped, with a dot prepended when missing. -/
def extNormalized (extension : String) : String :=
  let ext := pyStrip extension
  if ext ≠ "" ∧ ¬ strStartsWith ext "." then "." ++ ext else ext

/-- `ext.lstrip(".")`: the extension with all leading dots removed. -/
def extTail (extension : String) : String :=
  ⟨(extNormalized extension).data.dropWhile (· = '.')⟩

/-- The pre-truncation filename: the joined parts, with `.{ext_tail}`
appended when the extension tail is nonempty. -/
def rawFilename (document : Document) (extension : String) : String :=
  if extTail extension ≠ "" then
    joinParts (filenameParts document) ++ "." ++ extTail extension
  else
    joinParts (filenameParts document)

/-- `generate_filename`: `{validity!}{doc_number}{title}.{ext_tail}`, truncated
to the 200-character cap by keeping `max(1, 200 - 4 - len(ext_tail))` base
characters plus `....{ext_tail}` (`base` in the source is the same joined
parts as the original filename's). -/
def generate_filename (document : Document) (extension : String := ".pdf") : String :=
  if strLen (rawFilename document extension) > 200 then
    if extTail extension ≠ "" then
      strTake (joinParts (filenameParts document))
          (max 1 (200 - 4 - strLen (extTail extension)))
        ++ "...." ++ extTail extension
    else
      strTake (joinParts (filenameParts document)) 200
  else rawFilename document extension

theorem strLen_append (s t : String) : strLen (s ++ t) = strLen s + strLen t := by
  simp [strLen, strAppend_data]

theorem strLen_strTake_le (s : String) (n : Nat) : strLen (strTake s n) ≤ n := by
  simp only [strLen, strTake]
  exact le_trans (Nat.le_of_eq (List.length_take n s.data)) (min_le_left _ _)

/-- Document with no usable fields, for the overlong-extension counterexample. -/
def c9Doc : Document :=
  { title := "", url := "u", category := "c", category_id := "13",
    doc_number := "", office_unit := "" }

/-- A 196-character extension (dot-stripped tail of length 196). -/
def c9Ext : String := ⟨List.replicate 196 'a'⟩

set_option maxRecDepth 4000 in
/-- C9 counterexample: for this document and extension the generated name has
201 characters, so "truncated to at most 200 characters" fails for *every*
extension as the claim states it. -/
theorem generate_filename_overlong_counterexample :
    200 < strLen (generate_filename c9Doc c9Ext) := by decide


/-- C9 (amended): the generated filename is a deterministic function of the
document's field values with the illegal characters `<>:"/\|?*` replaced in
every field-derived part, and — provided the normalized extension tail has at
most 195 characters, which holds for every extension the program passes
(`""`, `".pdf"`, `".doc"`, `".docx"`, `".txt"`) — a name exceeding the fixed
maximum of 200 characters is truncated to at most 200 characters while still
ending with a dot followed by the normalized extension tail. -/
theorem generate_filename_spec (document : Document) (extension : String)
    (htail : strLen (extTail extension) ≤ 195) :
    strLen (generate_filename document extension) ≤ 200
    ∧ (extTail extension ≠ "" →
        ("." ++ extTail extension).data <:+ (generate_filename document extension).data)
    ∧ (∀ c ∈ (joinParts (filenameParts document)).data, c ∉ illegalFilenameChars) := by
  have hsan : ∀ s : String, ∀ c ∈ (sanitize s).data, c ∉ illegalFilenameChars := by
    intro s c hc
    simp only [sanitize, List.mem_map] at hc
    obtain ⟨c', -, hc'⟩ := hc
    by_cases hmem : c' ∈ illegalFilenameChars
    · rw [if_pos hmem] at hc'
      subst hc'
      decide
    · rw [if_neg hmem] at hc'
      subst hc'
      exact hmem
  have hbang : ∀ c ∈ ("!" : String).data, c ∉ illegalFilenameChars := by decide
  have hplaceholder : ∀ c ∈ ("未命名文件" : String).data, c ∉ illegalFilenameChars := by
    decide
  have hparts : ∀ p ∈ filenameParts document, ∀ c ∈ p.data, c ∉ illegalFilenameChars := by
    intro p hp
    unfold filenameParts at hp
    simp only [List.mem_append, List.mem_singleton] at hp
    rcases hp with (hp | hp) | hp
    · by_cases hc : (pyStrip document.validity ≠ "" ∧ pyStrip document.validity ≠ "有效")
      · rw [if_pos hc, List.mem_singleton] at hp
        subst hp
        intro c hcc
        rw [strAppend_data, List.mem_append] at hcc
        rcases hcc with hcc | hcc
        · exact hsan _ c hcc
        · exact hbang c hcc
      · rw [if_neg hc] at hp
        cases hp
    · by_cases hc : sanitize (pyStrip document.doc_number) ≠ ""
      · rw [if_pos hc, List.mem_singleton] at hp
        subst hp
        exact hsan _
      · rw [if_neg hc] at hp
        cases hp
    · subst hp
      by_cases hc : sanitize (pyStrip document.title) ≠ ""
      · rw [if_pos hc]
        exact hsan _
      · rw [if_neg hc]
        exact hplaceholder
  have hjoin : ∀ c ∈ (joinParts (filenameParts document)).data, c ∉ illegalFilenameChars := by
    intro c hc
    simp only [joinParts, List.mem_flatten, List.mem_map] at hc
    obtain ⟨l, ⟨p, hp, rfl⟩, hcl⟩ := hc
    exact hparts p hp c hcl
  refine ⟨?_, ?_, hjoin⟩
  · unfold generate_filename
    by_cases hlong : strLen (rawFilename document extension) > 200
    · rw [if_pos hlong]
      by_cases hne : extTail extension ≠ ""
      · rw [if_pos hne, strLen_append, strLen_append]
        have h1 := strLen_strTake_le (joinParts (filenameParts document))
          (max 1 (200 - 4 - strLen (extTail extension)))
        have h2 : strLen ("...." : String) = 4 := by decide
        omega
      · rw [if_neg hne]
        exact strLen_strTake_le _ _
    · rw [if_neg hlong]
      omega
  · intro hne
    unfold generate_filename
    by_cases hlong : strLen (rawFilename document extension) > 200
    · rw [if_pos hlong, if_pos hne]
      refine ⟨(strTake (joinParts (filenameParts document))
        (max 1 (200 - 4 - strLen (extTail extension)))).data ++ ['.', '.', '.'], ?_⟩
      rw [strAppend_data, strAppend_data, strAppend_data]
      have hdots : ("...." : String).data = ['.', '.', '.', '.'] := by decide
      have hdot : ("." : String).data = ['.'] := by decide
      rw [hdots, hdot]
      simp [List.append_assoc]
    · rw [if_neg hlong]
      unfold rawFilename
      rw [if_pos hne]
      refine ⟨(joinParts (filenameParts document)).data, ?_⟩
      rw [strAppend_data, strAppend_data, strAppend_data]
      have hdot : ("." : String).data = ['.'] := by decide
      rw [hdot]
      simp [List.append_assoc]

theorem generate_filename_spec_witness :
    strLen (generate_filename c1DocA ".pdf") ≤ 200
    ∧ ("." ++ extTail ".pdf").data <:+ (generate_filename c1DocA ".pdf").data := by
  have h := generate_filename_spec c1DocA ".pdf" (by decide)
  exact ⟨h.1, h.2.1 (by decide)⟩

/- ================================================================
   JS export sync (`Storage.sync_js_files`, `src/storage.py` 516-606),
   with `_format_js_date` and the per-category record builders.
   The on-disk JS files are modelled by their parsed data arrays
   (`_read_js_data` of a missing or unparsable file is `[]`).
   ================================================================ -/

/-- Pad a 1- or 2-digit component to two digits (`str.zfill(2)`). -/
def zfill2 (l : List Char) : List Char := if l.length = 1 then '0' :: l else l

/-- Fullmatch of `(\d{4})-(\d{2})-(\d{2})`. -/
def isoDateMatch : List Char → Option (List Char × List Char × List Char)
  | [y1, y2, y3, y4, '-', m1, m2, '-', d1, d2] =>
    if [y1, y2, y3, y4, m1, m2, d1, d2].all Char.isDigit then
      some ([y1, y2, y3, y4], [m1, m2], [d1, d2])
    else none
  | _ => none

/-- Fullmatch of `(\d{4})年(\d{1,2})月(\d{1,2})日`. -/
def cnDateMatch (l : List Char) : Option (List Char × List Char × List Char) :=
  let sy := l.span Char.isDigit
  if sy.1.length = 4 then
    match sy.2 with
    | '年' :: r2 =>
      let sm := r2.span Char.isDigit
      if sm.1.length = 1 ∨ sm.1.length = 2 then
        match sm.2 with
        | '月' :: r4 =>
          let sd := r4.span Char.isDigit
          if sd.1.length = 1 ∨ sd.1.length = 2 then
            match sd.2 with
            | ['日'] => some (sy.1, sm.1, sd.1)
            | _ => none
          else none
        | _ => none
      else none
    | _ => none
  else none

/-- `_format_js_date`: normalize a date to `YYYY年MM月DD日`, passing anything
else through unchanged. -/
def format_js_date (dateStr : String) : String :=
  let v := pyStrip dateStr
  if v = "" then ""
  else
    match isoDateMatch v.data with
    | some (y, m, d) => ⟨y ++ '年' :: m ++ '月' :: d ++ ['日']⟩
    | none =>
      match cnDateMatch v.data with
      | some (y, m, d) => ⟨y ++ '年' :: zfill2 m ++ '月' :: zfill2 d ++ ['日']⟩
      | none => v

/-- A JS export row: a dict whose keys may be absent (`none`). -/
structure JsRow where
  title : Option String := none
  url : Option String := none
  doc_type : Option String := none
  validity : Option String := none
  doc_number : Option String := none
  office_unit : Option String := none
  sign_date : Option String := none
  publish_date : Option String := none
  file_number : Option String := none
  pdf_url : Option String := none
deriving DecidableEq, Repr

/-- `row.get("url", "")`. -/
def rowUrl (r : JsRow) : String := r.url.getD ""

/-- `_build_regulation_record` (category 13). For `Document` string fields,
Python's `x or ""` is `x` itself (falsy strings are already `""`). -/
def build_regulation_record (doc : Document) (docType : String) (pdfUrl : String) : JsRow :=
  { title := some doc.title, url := some doc.url, doc_type := some docType,
    validity := some doc.validity, doc_number := some doc.doc_number,
    office_unit := some doc.office_unit,
    pdf_url := if pdfUrl ≠ "" then some pdfUrl else none }

/-- `_build_normative_record` (category 14). -/
def build_normative_record (doc : Document) (docType : String)
    (cachedFileNumber : String) (pdfUrl : String) : JsRow :=
  { title := some doc.title, url := some doc.url, doc_type := some docType,
    validity := some doc.validity,
    sign_date := some (format_js_date doc.sign_date),
    publish_date := some (format_js_date doc.publish_date),
    doc_number := some doc.doc_number,
    office_unit := if pyStrip doc.office_unit ≠ "" then some (pyStrip doc.office_unit) else none,
    file_number := some (if cachedFileNumber ≠ "" then cachedFileNumber
      else if doc.doc_number ≠ "" then "文号：" ++ doc.doc_number else ""),
    pdf_url := if pdfUrl ≠ "" then some pdfUrl else none }

/-- `_build_standard_record` (category 15). -/
def build_standard_record (doc : Document) (docType : String) (pdfUrl : String) : JsRow :=
  { title := some doc.title, url := some doc.url, doc_type := some docType,
    validity := some doc.validity,
    publish_date := some (format_js_date doc.publish_date),
    doc_number := some doc.doc_number, office_unit := some doc.office_unit,
    pdf_url := if pdfUrl ≠ "" then some pdfUrl else none }

/-- One entry of `JS_EXPORT_CONFIG`. -/
structure JsConfig where
  filename : String
  export_name : String
  doc_type : String
deriving DecidableEq, Repr

/-- `JS_EXPORT_CONFIG`, in source (dict-insertion) order. -/
def JS_EXPORT_CONFIG : List (String × JsConfig) :=
  [("13", ⟨"regulation.js", "regulationData", "CCAR规章"⟩),
   ("14", ⟨"normative.js", "normativeData", "规范性文件"⟩),
   ("15", ⟨"specification.js", "standardData", "标准规范"⟩)]

/-- The `existing_pdf_url_by_url` lookup built from a file's existing rows
(rows with nonempty stripped url and pdf_url; later rows overwrite). -/
def existingPdfByUrl (rows : List JsRow) : List (String × String) :=
  rows.foldl (fun m row =>
    let u := pyStrip (row.url.getD "")
    let pu := pyStrip (row.pdf_url.getD "")
    if u ≠ "" ∧ pu ≠ "" then setAssoc m u pu else m) []

/-- The `existing_file_number_by_url` cache built from the normative file's
rows before the loop. -/
def fileNumberByUrl (rows : List JsRow) : List (String × String) :=
  rows.foldl (fun m row =>
    let u := pyStrip (row.url.getD "")
    let fn := pyStrip (row.file_number.getD "")
    if u ≠ "" ∧ fn ≠ "" then setAssoc m u fn else m) []

/-- `pdf_url=url_map.get(doc.url, existing_pdf_url_by_url.get(doc.url, ""))`. -/
def pdfUrlFor (urlMap existingPdf : List (String × String)) (doc : Document) : String :=
  (lookupAssoc urlMap doc.url).getD ((lookupAssoc existingPdf doc.url).getD "")

/-- The `records` list built for one category. -/
def jsRecords (catId : String) (cfg : JsConfig)
    (fileNumberCache urlMap existingPdf : List (String × String))
    (docs : List Document) : List JsRow :=
  if catId = "13" then
    docs.map (fun doc => build_regulation_record doc cfg.doc_type
      (pdfUrlFor urlMap existingPdf doc))
  else if catId = "14" then
    docs.map (fun doc => build_normative_record doc cfg.doc_type
      ((lookupAssoc fileNumberCache doc.url).getD "")
      (pdfUrlFor urlMap existingPdf doc))
  else
    docs.map (fun doc => build_standard_record doc cfg.doc_type
      (pdfUrlFor urlMap existingPdf doc))

/-- `seen_urls`: the truthy urls of the freshly built records. -/
def seenUrls (records : List JsRow) : List String :=
  records.filterMap (fun r => if rowUrl r ≠ "" then some (rowUrl r) else none)

/-- The merge of fresh records with retained history:
`records + [row for row in existing_rows if not row.get("url") or row.get("url") not in seen_urls]`. -/
def mergeJsRecords (records existingRows : List JsRow) : List JsRow :=
  records ++ existingRows.filter
    (fun row => decide (rowUrl row = "" ∨ rowUrl row ∉ seenUrls records))

/-- The loop body of `sync_js_files` for one `(cat_id, config)` entry: reads
the file's rows, keeps the file untouched when the category has no current
documents but prior rows exist, writes an empty file when both are empty, and
otherwise writes the merged records. `files` maps filename to parsed rows;
`summary` is the per-file row count. -/
def syncJsStep (current : List (String × List Document))
    (urlMap fileNumberCache : List (String × String))
    (acc : List (String × List JsRow) × List (String × Nat))
    (entry : String × JsConfig) : List (String × List JsRow) × List (String × Nat) :=
  let files := acc.1
  let summary := acc.2
  let catId := entry.1
  let cfg := entry.2
  let docs := lookupAssoc current catId
  let existingRows := (lookupAssoc files cfg.filename).getD []
  let existingPdf := existingPdfByUrl existingRows
  match docs with
  | none => if existingRows ≠ [] then (files, setAssoc summary cfg.filename existingRows.length)
            else (setAssoc files cfg.filename [], setAssoc summary cfg.filename 0)
  | some [] => if existingRows ≠ [] then (files, setAssoc summary cfg.filename existingRows.length)
               else (setAssoc files cfg.filename [], setAssoc summary cfg.filename 0)
  | some docsList =>
    let records := jsRecords catId cfg fileNumberCache urlMap existingPdf docsList
    let merged := mergeJsRecords records existingRows
    (setAssoc files cfg.filename merged, setAssoc summary cfg.filename merged.length)

/-- `Storage.sync_js_files`: build the normative file-number cache from the
original normative file, then process the three configured categories. -/
def sync_js_files (files : List (String × List JsRow))
    (current : List (String × List Document))
    (urlMap : List (String × String)) :
    List (String × List JsRow) × List (String × Nat) :=
  let fileNumberCache := fileNumberByUrl ((lookupAssoc files "normative.js").getD [])
  JS_EXPORT_CONFIG.foldl (syncJsStep current urlMap fileNumberCache) (files, [])

theorem not_empty_mem_seenUrls (records : List JsRow) : "" ∉ seenUrls records := by
  intro h
  simp only [seenUrls, List.mem_filterMap] at h
  obtain ⟨r, -, hr⟩ := h
  by_cases hc : rowUrl r ≠ ""
  · rw [if_pos hc] at hr
    exact hc (Option.some.inj hr)
  · rw [if_neg hc] at hr
    cases hr

theorem mergeJsRecords_eq (records existing : List JsRow) :
    mergeJsRecords records existing =
      records ++ existing.filter (fun row => decide (rowUrl row ∉ seenUrls records)) := by
  unfold mergeJsRecords
  congr 1
  apply List.filter_congr
  intro row _
  simp only [decide_eq_decide]
  constructor
  · rintro (h | h)
    · rw [h]
      exact not_empty_mem_seenUrls records
    · exact h
  · exact Or.inr

theorem syncJsStep_preserves (current : List (String × List Document))
    (urlMap cache : List (String × String))
    (acc : List (String × List JsRow) × List (String × Nat))
    (entry : String × JsConfig) (fname : String)
    (h : entry.2.filename ≠ fname) :
    lookupAssoc (syncJsStep current urlMap cache acc entry).1 fname
      = lookupAssoc acc.1 fname := by
  cases hd : lookupAssoc current entry.1 with
  | none =>
    by_cases he : ((lookupAssoc acc.1 entry.2.filename).getD []) ≠ []
    · simp only [syncJsStep, hd, if_pos he]
    · simp only [syncJsStep, hd, if_neg he]
      exact lookupAssoc_setAssoc_ne _ _ _ _ h
  | some l =>
    cases l with
    | nil =>
      by_cases he : ((lookupAssoc acc.1 entry.2.filename).getD []) ≠ []
      · simp only [syncJsStep, hd, if_pos he]
      · simp only [syncJsStep, hd, if_neg he]
        exact lookupAssoc_setAssoc_ne _ _ _ _ h
    | cons d ds =>
      simp only [syncJsStep, hd]
      exact lookupAssoc_setAssoc_ne _ _ _ _ h

theorem syncJsStep_keep (current : List (String × List Document))
    (urlMap cache : List (String × String))
    (acc : List (String × List JsRow) × List (String × Nat))
    (entry : String × JsConfig)
    (hdocs : lookupAssoc current entry.1 = none ∨ lookupAssoc current entry.1 = some [])
    (he : (lookupAssoc acc.1 entry.2.filename).getD [] ≠ []) :
    (syncJsStep current urlMap cache acc entry).1 = acc.1 := by
  rcases hdocs with hd | hd
  · simp only [syncJsStep, hd, if_pos he]
  · simp only [syncJsStep, hd, if_pos he]

theorem syncJsStep_write (current : List (String × List Document))
    (urlMap cache : List (String × String))
    (acc : List (String × List JsRow) × List (String × Nat))
    (entry : String × JsConfig) (l : List Document)
    (hdocs : lookupAssoc current entry.1 = some l) (hl : l ≠ []) :
    (syncJsStep current urlMap cache acc entry).1 =
      setAssoc acc.1 entry.2.filename
        (mergeJsRecords
          (jsRecords entry.1 entry.2 cache urlMap
            (existingPdfByUrl ((lookupAssoc acc.1 entry.2.filename).getD []))
            l)
          ((lookupAssoc acc.1 entry.2.filename).getD [])) := by
  cases l with
  | nil => exact absurd rfl hl
  | cons d ds => simp only [syncJsStep, hdocs]

/-- C3: for every configured category whose current fetch produced zero
documents — whether the category was not requested this run (`none`) or was
requested but empty (`some []`) — while a prior non-empty export file exists,
the export sync leaves that export file's rows unchanged and never overwrites
it with an empty file. -/
theorem sync_js_export_retention
    (files : List (String × List JsRow)) (current : List (String × List Document))
    (urlMap : List (String × String)) (catId : String) (cfg : JsConfig)
    (hcfg : (catId, cfg) ∈ JS_EXPORT_CONFIG)
    (hdocs : lookupAssoc current catId = none ∨ lookupAssoc current catId = some [])
    (hne : (lookupAssoc files cfg.filename).getD [] ≠ []) :
    lookupAssoc (sync_js_files files current urlMap).1 cfg.filename
      = lookupAssoc files cfg.filename := by
  simp only [JS_EXPORT_CONFIG, List.mem_cons, List.mem_singleton, Prod.mk.injEq,
    List.not_mem_nil, or_false] at hcfg
  simp only [sync_js_files, JS_EXPORT_CONFIG, List.foldl_cons, List.foldl_nil]
  rcases hcfg with ⟨rfl, rfl⟩ | ⟨rfl, rfl⟩ | ⟨rfl, rfl⟩
  · rw [syncJsStep_preserves _ _ _ _ _ _ (by decide),
      syncJsStep_preserves _ _ _ _ _ _ (by decide),
      syncJsStep_keep _ _ _ _ _ hdocs hne]
  · rw [syncJsStep_preserves _ _ _ _ _ _ (by decide)]
    have h1 := syncJsStep_preserves current urlMap
      (fileNumberByUrl ((lookupAssoc files "normative.js").getD [])) (files, [])
      ("13", ⟨"regulation.js", "regulationData", "CCAR规章"⟩) "normative.js" (by decide)
    rw [syncJsStep_keep _ _ _ _ _ hdocs (by rw [h1]; exact hne), h1]
  · have h1 := syncJsStep_preserves current urlMap
      (fileNumberByUrl ((lookupAssoc files "normative.js").getD [])) (files, [])
      ("13", ⟨"regulation.js", "regulationData", "CCAR规章"⟩) "specification.js" (by decide)
    have h2 := syncJsStep_preserves current urlMap
      (fileNumberByUrl ((lookupAssoc files "normative.js").getD []))
      (syncJsStep current urlMap
        (fileNumberByUrl ((lookupAssoc files "normative.js").getD [])) (files, [])
        ("13", ⟨"regulation.js", "regulationData", "CCAR规章"⟩))
      ("14", ⟨"normative.js", "normativeData", "规范性文件"⟩) "specification.js" (by decide)
    rw [syncJsStep_keep _ _ _ _ _ hdocs (by rw [h2, h1]; exact hne), h2, h1]

/-- Existing export row for the C3/C8 witnesses. -/
def c3Row : JsRow :=
  { title := some "Old", url := some "http://a/old", doc_type := some "规范性文件",
    validity := some "有效", doc_number := some "N0", file_number := some "文号：N0" }

def c3Files : List (String × List JsRow) := [("normative.js", [c3Row])]

theorem sync_js_export_retention_witness :
    lookupAssoc (sync_js_files c3Files [("13", [c1DocA])] []).1 "normative.js"
      = lookupAssoc c3Files "normative.js" :=
  sync_js_export_retention c3Files [("13", [c1DocA])] [] "14"
    ⟨"normative.js", "normativeData", "规范性文件"⟩ (by decide) (Or.inl (by decide))
    (by decide)

/-- The rows of one export file after `sync_js_files`. -/
def syncedRows (files : List (String × List JsRow))
    (current : List (String × List Document)) (urlMap : List (String × String))
    (fname : String) : List JsRow :=
  (lookupAssoc (sync_js_files files current urlMap).1 fname).getD []

/-- The fresh rows `sync_js_files` builds for one category from the current
documents (using the pre-loop file-number cache and the file's prior rows). -/
def jsRecordsFor (files : List (String × List JsRow))
    (urlMap : List (String × String)) (catId : String) (cfg : JsConfig)
    (l : List Document) : List JsRow :=
  jsRecords catId cfg (fileNumberByUrl ((lookupAssoc files "normative.js").getD []))
    urlMap (existingPdfByUrl ((lookupAssoc files cfg.filename).getD [])) l

/-- C8: for every configured category with a non-empty current fetch, the
merged export equals the current rows followed by exactly those prior rows
whose url is absent from the current rows' urls — current rows first
(witnessed by the `take`), retained prior rows in their prior order
(witnessed by the `filter`), and no prior row whose url is not superseded by
a current row is lost. -/
theorem sync_js_merge_retains_history
    (files : List (String × List JsRow)) (current : List (String × List Document))
    (urlMap : List (String × String)) (catId : String) (cfg : JsConfig)
    (l : List Document)
    (hcfg : (catId, cfg) ∈ JS_EXPORT_CONFIG)
    (hdocs : lookupAssoc current catId = some l) (hl : l ≠ []) :
    syncedRows files current urlMap cfg.filename
      = jsRecordsFor files urlMap catId cfg l
        ++ ((lookupAssoc files cfg.filename).getD []).filter
          (fun row => decide (rowUrl row ∉ seenUrls (jsRecordsFor files urlMap catId cfg l)))
    ∧ (syncedRows files current urlMap cfg.filename).take
        (jsRecordsFor files urlMap catId cfg l).length
      = jsRecordsFor files urlMap catId cfg l
    ∧ (∀ row ∈ (lookupAssoc files cfg.filename).getD [],
        rowUrl row ∉ seenUrls (jsRecordsFor files urlMap catId cfg l) →
        row ∈ syncedRows files current urlMap cfg.filename) := by
  have hmain : syncedRows files current urlMap cfg.filename
      = jsRecordsFor files urlMap catId cfg l
        ++ ((lookupAssoc files cfg.filename).getD []).filter
          (fun row => decide (rowUrl row ∉ seenUrls (jsRecordsFor files urlMap catId cfg l))) := by
    simp only [JS_EXPORT_CONFIG, List.mem_cons, List.mem_singleton, Prod.mk.injEq,
      List.not_mem_nil, or_false] at hcfg
    unfold syncedRows
    simp only [sync_js_files, JS_EXPORT_CONFIG, List.foldl_cons, List.foldl_nil]
    rcases hcfg with ⟨rfl, rfl⟩ | ⟨rfl, rfl⟩ | ⟨rfl, rfl⟩
    · rw [syncJsStep_preserves _ _ _ _ _ _ (by decide),
        syncJsStep_preserves _ _ _ _ _ _ (by decide),
        syncJsStep_write _ _ _ _ _ l hdocs hl, lookupAssoc_setAssoc_self]
      rw [mergeJsRecords_eq]
      rfl
    · rw [syncJsStep_preserves _ _ _ _ _ _ (by decide)]
      have h1 := syncJsStep_preserves current urlMap
        (fileNumberByUrl ((lookupAssoc files "normative.js").getD [])) (files, [])
        ("13", ⟨"regulation.js", "regulationData", "CCAR规章"⟩) "normative.js" (by decide)
      rw [syncJsStep_write _ _ _ _ _ l hdocs hl, lookupAssoc_setAssoc_self]
      rw [mergeJsRecords_eq, h1]
      rfl
    · have h1 := syncJsStep_preserves current urlMap
        (fileNumberByUrl ((lookupAssoc files "normative.js").getD [])) (files, [])
        ("13", ⟨"regulation.js", "regulationData", "CCAR规章"⟩) "specification.js" (by decide)
      have h2 := syncJsStep_preserves current urlMap
        (fileNumberByUrl ((lookupAssoc files "normative.js").getD []))
        (syncJsStep current urlMap
          (fileNumberByUrl ((lookupAssoc files "normative.js").getD [])) (files, [])
          ("13", ⟨"regulation.js", "regulationData", "CCAR规章"⟩))
        ("14", ⟨"normative.js", "normativeData", "规范性文件"⟩) "specification.js" (by decide)
      rw [syncJsStep_write _ _ _ _ _ l hdocs hl, lookupAssoc_setAssoc_self]
      rw [mergeJsRecords_eq, h2, h1]
      rfl
  refine ⟨hmain, ?_, ?_⟩
  · rw [hmain]
    exact List.take_left _ _
  · intro row hrow hnot
    rw [hmain]
    refine List.mem_append_right _ (List.mem_filter.mpr ⟨hrow, ?_⟩)
    simpa using hnot

/-- Current document for the merge witness: supersedes nothing in `c3Files`. -/
def c8Doc : Document :=
  { title := "Fresh", url := "http://a/new", category := "c", category_id := "14",
    doc_number := "N8", office_unit := "Office" }

theorem sync_js_merge_retains_history_witness :
    syncedRows c3Files [("14", [c8Doc])] [] "normative.js"
      = jsRecordsFor c3Files [] "14" ⟨"normative.js", "normativeData", "规范性文件"⟩ [c8Doc]
        ++ [c3Row].filter
          (fun row => decide (rowUrl row ∉ seenUrls
            (jsRecordsFor c3Files [] "14" ⟨"normative.js", "normativeData", "规范性文件"⟩ [c8Doc])))
    ∧ c3Row ∈ syncedRows c3Files [("14", [c8Doc])] [] "normative.js" := by
  have h := sync_js_merge_retains_history c3Files [("14", [c8Doc])] [] "14"
    ⟨"normative.js", "normativeData", "规范性文件"⟩ [c8Doc] (by decide) (by decide)
    (by decide)
  exact ⟨h.1, h.2.2 c3Row (by decide) (by decide)⟩

/- ================================================================
   Path helpers (`os.path` on POSIX), used by the download sync and
   the remote mirror.
   ================================================================ -/

/-- `os.path.join(a, b)` (POSIX, non-degenerate cases). -/
def osJoin (a b : String) : String :=
  if strStartsWith b "/" then b
  else if a = "" then b
  else if strEndsWith a "/" then a ++ b
  else a ++ "/" ++ b

/-- Python `path.split("/")` (keeping empty components). -/
def splitSlash : List Char → List (List Char)
  | [] => [[]]
  | '/' :: rest => [] :: splitSlash rest
  | c :: rest =>
    match splitSlash rest with
    | [] => [[c]]
    | h :: t => (c :: h) :: t

/-- `"/".join(...)` on character-list components. -/
def joinSlashL : List (List Char) → List Char
  | [] => []
  | h :: t => t.foldl (fun acc x => acc ++ '/' :: x) h

/-- The component normalization loop of `posixpath.normpath`: drop empty and
`.` components; `..` pops a previous component unless at the start of a
relative path or stacked on another `..` (and is dropped at the root of an
absolute path). `acc` holds processed components in reverse. -/
def normParts (isAbs : Bool) : List (List Char) → List (List Char) → List (List Char)
  | acc, [] => acc.reverse
  | acc, c :: rest =>
    if c = [] ∨ c = ['.'] then normParts isAbs acc rest
    else if c ≠ ['.', '.'] ∨ (¬ isAbs ∧ acc = []) ∨ (acc.head? = some ['.', '.']) then
      normParts isAbs (c :: acc) rest
    else
      match acc with
      | _ :: accRest => normParts isAbs accRest rest
      | [] => normParts isAbs acc rest

/-- `posixpath.normpath` (with the double-initial-slash special case). -/
def normpath (p : String) : String :=
  if p.data = [] then "."
  else
    let isAbs := strStartsWith p "/"
    let dbl := strStartsWith p "//" ∧ ¬ strStartsWith p "///"
    let joined := joinSlashL (normParts isAbs [] (splitSlash p.data))
    let pre : List Char := if isAbs then (if dbl then ['/', '/'] else ['/']) else []
    let r := pre ++ joined
    if r = [] then "." else ⟨r⟩

/-- Length of the common prefix of two component lists. -/
def commonPrefixLen : List (List Char) → List (List Char) → Nat
  | a :: as, b :: bs => if a = b then 1 + commonPrefixLen as bs else 0
  | _, _ => 0

/-- `os.path.relpath(p, start)` for two paths relative to the same working
directory (the source always passes paths under the download directory, so
the common `abspath` prefix cancels). -/
def relpath (p start : String) : String :=
  let pl := (splitSlash (normpath p).data).filter (fun c => decide (c ≠ []))
  let sl := (splitSlash (normpath start).data).filter (fun c => decide (c ≠ []))
  let i := commonPrefixLen sl pl
  let rel := List.replicate (sl.length - i) ['.', '.'] ++ pl.drop i
  if rel = [] then "." else ⟨joinSlashL rel⟩

/-- The basename (the part after the last `/`). -/
def afterLastSep (l : List Char) : List Char :=
  (l.reverse.takeWhile (fun c => decide (c ≠ '/'))).reverse

/-- Split a character list at its last `.`: `some (before, from-dot)`. -/
def lastDotSplit : List Char → Option (List Char × List Char)
  | [] => none
  | c :: rest =>
    match lastDotSplit rest with
    | some (b, e) => some (c :: b, e)
    | none => if c = '.' then some ([], c :: rest) else none

/-- `posixpath.splitext`: split off the extension beginning at the last dot of
the basename, provided some earlier basename character is not a dot (so
dotfiles like `.bashrc` have no extension). -/
def splitext (p : String) : String × String :=
  let base := afterLastSep p.data
  let lead := base.takeWhile (fun c => decide (c = '.'))
  let rest := base.drop lead.length
  if rest.any (fun c => decide (c = '.')) then
    match lastDotSplit base with
    | some (_, e) => (⟨p.data.take (p.data.length - e.length)⟩, ⟨e⟩)
    | none => (p, "")
  else (p, "")

/-- `os.path.splitext(old_path)[1].lower() or ".pdf"` from the sync loop. -/
def extOrPdf (oldPath : String) : String :=
  let e := pyLower (splitext oldPath).2
  if e = "" then ".pdf" else e

/- ================================================================
   Remote mirror (`R2Uploader.upload_downloads`, `src/r2_uploader.py`
   193-264). The object-store PUT (`upload_file`, network I/O) is an
   oracle `put : localPath → key → Option publicUrl`; the local
   filesystem is a map from path to byte size.
   ================================================================ -/

/-- A download-index record (`{relative_path, updated_at}`). -/
structure IndexRec where
  relative_path : String
  updated_at : String := ""
deriving DecidableEq, Repr

/-- An R2 cache record (`{r2_url, file_size}`). -/
structure R2Rec where
  r2_url : String
  file_size : Nat
deriving DecidableEq, Repr

/-- The mutable state threaded through the upload loop, plus the list of
relative paths actually uploaded (in order). -/
structure R2State where
  urlMap : List (String × String)
  cache : List (String × R2Rec)
  uploads : List String
  uploaded : Nat
  cachedCount : Nat
  skipped : Nat
  failed : Nat
deriving DecidableEq, Repr

/-- One iteration of the `upload_downloads` loop: skip empty or non-`.pdf`
relative paths and missing files; reuse the cached URL when the cached size
matches; otherwise upload, updating cache and url map on success, falling
back to any stale cached URL on failure. -/
def r2ProcessEntry (put : String → String → Option String)
    (fs : List (String × Nat)) (dir : String)
    (st : R2State) (entry : String × IndexRec) : R2State :=
  let rel := pyStrip entry.2.relative_path
  if rel = "" then st
  else if ¬ strEndsWith (pyLower rel) ".pdf" then { st with skipped := st.skipped + 1 }
  else
    match lookupAssoc fs (osJoin dir rel) with
    | none => { st with skipped := st.skipped + 1 }
    | some size =>
      let cachedRecord := lookupAssoc st.cache rel
      let uploadNow : R2State :=
        match put (osJoin dir rel) rel with
        | some url =>
          { st with urlMap := setAssoc st.urlMap entry.1 url,
                    cache := setAssoc st.cache rel ⟨url, size⟩,
                    uploads := st.uploads ++ [rel],
                    uploaded := st.uploaded + 1 }
        | none =>
          match cachedRecord with
          | some r => { st with urlMap := setAssoc st.urlMap entry.1 r.r2_url,
                                cachedCount := st.cachedCount + 1 }
          | none => { st with failed := st.failed + 1 }
      match cachedRecord with
      | some r =>
        if r.file_size = size then
          { st with urlMap := setAssoc st.urlMap entry.1 r.r2_url,
                    cachedCount := st.cachedCount + 1 }
        else uploadNow
      | none => uploadNow

/-- `upload_downloads`: fold the loop over the download index starting from
the loaded cache; the boolean records whether the cache index is re-saved
(`uploaded > 0`). -/
def upload_downloads (put : String → String → Option String)
    (fs : List (String × Nat)) (dir : String)
    (index : List (String × IndexRec)) (initCache : List (String × R2Rec)) :
    R2State × Bool :=
  let final := index.foldl (r2ProcessEntry put fs dir)
    ⟨[], initCache, [], 0, 0, 0, 0⟩
  (final, decide (0 < final.uploaded))

theorem r2Step_urlMap_other (put : String → String → Option String)
    (fs : List (String × Nat)) (dir : String) (st : R2State)
    (e : String × IndexRec) {u : String} (h : e.1 ≠ u) :
    lookupAssoc (r2ProcessEntry put fs dir st e).urlMap u = lookupAssoc st.urlMap u := by
  simp only [r2ProcessEntry]
  split
  · rfl
  · split
    · rfl
    · split
      · rfl
      · split
        · split
          · exact lookupAssoc_setAssoc_ne _ _ _ _ h
          · split
            · exact lookupAssoc_setAssoc_ne _ _ _ _ h
            · split
              · exact lookupAssoc_setAssoc_ne _ _ _ _ h
              · rfl
        · split
          · exact lookupAssoc_setAssoc_ne _ _ _ _ h
          · split
            · exact lookupAssoc_setAssoc_ne _ _ _ _ h
            · rfl

theorem r2Step_other_path (put : String → String → Option String)
    (fs : List (String × Nat)) (dir : String) (st : R2State)
    (e : String × IndexRec) {p : String}
    (hrel : pyStrip e.2.relative_path ≠ p) :
    lookupAssoc (r2ProcessEntry put fs dir st e).cache p = lookupAssoc st.cache p
    ∧ (r2ProcessEntry put fs dir st e).uploads.count p = st.uploads.count p := by
  have hcount : (st.uploads ++ [pyStrip e.2.relative_path]).count p = st.uploads.count p := by
    rw [List.count_append]
    simp [List.count_singleton', hrel]
  simp only [r2ProcessEntry]
  split
  · exact ⟨rfl, rfl⟩
  · split
    · exact ⟨rfl, rfl⟩
    · split
      · exact ⟨rfl, rfl⟩
      · split
        · split
          · exact ⟨rfl, rfl⟩
          · split
            · exact ⟨lookupAssoc_setAssoc_ne _ _ _ _ hrel, hcount⟩
            · split
              · exact ⟨rfl, rfl⟩
              · exact ⟨rfl, rfl⟩
        · split
          · exact ⟨lookupAssoc_setAssoc_ne _ _ _ _ hrel, hcount⟩
          · split
            · exact ⟨rfl, rfl⟩
            · exact ⟨rfl, rfl⟩

theorem strEndsWith_pdf_ne_empty {p : String}
    (hpdf : strEndsWith (pyLower p) ".pdf" = true) : p ≠ "" := by
  intro h
  rw [h] at hpdf
  revert hpdf
  decide

theorem r2Step_match_hit (put : String → String → Option String)
    (fs : List (String × Nat)) (dir : String) (st : R2State)
    (e : String × IndexRec) {p : String} {s : Nat} {r : R2Rec}
    (hrel : pyStrip e.2.relative_path = p)
    (hpdf : strEndsWith (pyLower p) ".pdf" = true)
    (hsize : lookupAssoc fs (osJoin dir p) = some s)
    (hc : lookupAssoc st.cache p = some r) (hr : r.file_size = s) :
    r2ProcessEntry put fs dir st e =
      { st with urlMap := setAssoc st.urlMap e.1 r.r2_url,
                cachedCount := st.cachedCount + 1 } := by
  have hpne : p ≠ "" := strEndsWith_pdf_ne_empty hpdf
  simp only [r2ProcessEntry, hrel, if_neg hpne, hpdf, not_true, hsize, hc, hr]
  simp

theorem r2Step_upload (put : String → String → Option String)
    (fs : List (String × Nat)) (dir : String) (st : R2State)
    (e : String × IndexRec) {p : String} {s : Nat} {url : String}
    (hrel : pyStrip e.2.relative_path = p)
    (hpdf : strEndsWith (pyLower p) ".pdf" = true)
    (hsize : lookupAssoc fs (osJoin dir p) = some s)
    (hmis : ∀ r, lookupAssoc st.cache p = some r → r.file_size ≠ s)
    (hput : put (osJoin dir p) p = some url) :
    r2ProcessEntry put fs dir st e =
      { st with urlMap := setAssoc st.urlMap e.1 url,
                cache := setAssoc st.cache p ⟨url, s⟩,
                uploads := st.uploads ++ [p],
                uploaded := st.uploaded + 1 } := by
  have hpne : p ≠ "" := strEndsWith_pdf_ne_empty hpdf
  cases hcr : lookupAssoc st.cache p with
  | none =>
    simp only [r2ProcessEntry, hrel, if_neg hpne, hpdf, not_true, hsize, hcr, hput]
    simp
  | some r =>
    have hne := hmis r hcr
    simp only [r2ProcessEntry, hrel, if_neg hpne, hpdf, not_true, hsize, hcr, hput,
      if_neg hne]
    simp

theorem r2Fold_match_stable (put : String → String → Option String)
    (fs : List (String × Nat)) (dir : String)
    (L : List (String × IndexRec)) (st : R2State) {p : String} {s : Nat} {r : R2Rec}
    (hpdf : strEndsWith (pyLower p) ".pdf" = true)
    (hsize : lookupAssoc fs (osJoin dir p) = some s)
    (hc : lookupAssoc st.cache p = some r) (hr : r.file_size = s) :
    lookupAssoc (L.foldl (r2ProcessEntry put fs dir) st).cache p = some r
    ∧ (L.foldl (r2ProcessEntry put fs dir) st).uploads.count p = st.uploads.count p := by
  induction L generalizing st with
  | nil => exact ⟨hc, rfl⟩
  | cons e rest ih =>
    simp only [List.foldl_cons]
    by_cases hrel : pyStrip e.2.relative_path = p
    · rw [r2Step_match_hit put fs dir st e hrel hpdf hsize hc hr]
      exact ih _ hc
    · obtain ⟨hcache, hcount⟩ := r2Step_other_path put fs dir st e hrel
      have hc' : lookupAssoc (r2ProcessEntry put fs dir st e).cache p = some r := by
        rw [hcache]; exact hc
      obtain ⟨ha, hb⟩ := ih _ hc'
      exact ⟨ha, by rw [hb, hcount]⟩

theorem r2Fold_urlMap_stable (put : String → String → Option String)
    (fs : List (String × Nat)) (dir : String)
    (L : List (String × IndexRec)) (st : R2State) {u : String}
    (h : ∀ e ∈ L, e.1 ≠ u) :
    lookupAssoc (L.foldl (r2ProcessEntry put fs dir) st).urlMap u
      = lookupAssoc st.urlMap u := by
  induction L generalizing st with
  | nil => rfl
  | cons e rest ih =>
    simp only [List.foldl_cons]
    rw [ih _ (fun e' he' => h e' (List.mem_cons_of_mem _ he')),
      r2Step_urlMap_other put fs dir st e (h e (List.mem_cons_self _ _))]

theorem r2Fold_mismatch (put : String → String → Option String)
    (fs : List (String × Nat)) (dir : String)
    (L : List (String × IndexRec)) (st : R2State) {p : String} {s : Nat}
    (hput : ∀ a b, (put a b).isSome)
    (hpdf : strEndsWith (pyLower p) ".pdf" = true)
    (hsize : lookupAssoc fs (osJoin dir p) = some s)
    (hmis : ∀ r, lookupAssoc st.cache p = some r → r.file_size ≠ s)
    (hex : ∃ e ∈ L, pyStrip e.2.relative_path = p) :
    (L.foldl (r2ProcessEntry put fs dir) st).uploads.count p
      = st.uploads.count p + 1 := by
  induction L generalizing st with
  | nil => obtain ⟨e, he, -⟩ := hex; cases he
  | cons e rest ih =>
    simp only [List.foldl_cons]
    by_cases hrel : pyStrip e.2.relative_path = p
    · obtain ⟨url, hurl⟩ := Option.isSome_iff_exists.mp (hput (osJoin dir p) p)
      rw [r2Step_upload put fs dir st e hrel hpdf hsize hmis hurl]
      have hstable := r2Fold_match_stable put fs dir rest
        { st with urlMap := setAssoc st.urlMap e.1 url,
                  cache := setAssoc st.cache p ⟨url, s⟩,
                  uploads := st.uploads ++ [p],
                  uploaded := st.uploaded + 1 }
        hpdf hsize (r := ⟨url, s⟩) (lookupAssoc_setAssoc_self _ _ _) rfl
      rw [hstable.2]
      simp [List.count_append]
    · obtain ⟨hcache, hcount⟩ := r2Step_other_path put fs dir st e hrel
      have hmis' : ∀ r, lookupAssoc (r2ProcessEntry put fs dir st e).cache p = some r →
          r.file_size ≠ s := by
        intro r hcr
        rw [hcache] at hcr
        exact hmis r hcr
      have hex' : ∃ e' ∈ rest, pyStrip e'.2.relative_path = p := by
        obtain ⟨e', he', hp'⟩ := hex
        rcases List.mem_cons.mp he' with rfl | he''
        · exact absurd hp' hrel
        · exact ⟨e', he'', hp'⟩
      rw [ih _ hmis' hex', hcount]

/-- C5: for every download index and remote-cache state (with all uploads
succeeding and the index keyed by distinct urls, as a Python dict is), the
mirror step uploads a local PDF file exactly when the cache has no entry for
its relative path with `file_size` equal to the file's current byte size:
when the sizes match, the cached remote URL is mapped for the document with
zero uploads of that file; when they differ, exactly one re-upload of that
file is performed. -/
theorem upload_downloads_cache_correct
    (put : String → String → Option String)
    (fs : List (String × Nat)) (dir : String)
    (index : List (String × IndexRec)) (initCache : List (String × R2Rec))
    (u : String) (rec : IndexRec) {s : Nat}
    (hput : ∀ a b, (put a b).isSome)
    (hkeys : (index.map Prod.fst).Nodup)
    (hmem : (u, rec) ∈ index)
    (hpdf : strEndsWith (pyLower (pyStrip rec.relative_path)) ".pdf" = true)
    (hsize : lookupAssoc fs (osJoin dir (pyStrip rec.relative_path)) = some s) :
    (∀ r, lookupAssoc initCache (pyStrip rec.relative_path) = some r → r.file_size = s →
      (upload_downloads put fs dir index initCache).1.uploads.count
          (pyStrip rec.relative_path) = 0
      ∧ lookupAssoc (upload_downloads put fs dir index initCache).1.urlMap u
          = some r.r2_url)
    ∧ ((∀ r, lookupAssoc initCache (pyStrip rec.relative_path) = some r →
          r.file_size ≠ s) →
      (upload_downloads put fs dir index initCache).1.uploads.count
          (pyStrip rec.relative_path) = 1) := by
  constructor
  · intro r hc hr
    obtain ⟨L1, L2, hsplit⟩ := List.append_of_mem hmem
    subst hsplit
    have hu1 : u ∉ L1.map Prod.fst ∧ u ∉ L2.map Prod.fst := by
      rw [List.map_append, List.map_cons] at hkeys
      obtain ⟨h1, h2, hdisj⟩ := List.nodup_append.mp hkeys
      exact ⟨fun hin => hdisj hin (List.mem_cons_self _ _),
        (List.nodup_cons.mp h2).1⟩
    unfold upload_downloads
    simp only [List.foldl_append, List.foldl_cons]
    have hst1 := r2Fold_match_stable put fs dir L1
      ⟨[], initCache, [], 0, 0, 0, 0⟩ hpdf hsize hc hr
    rw [r2Step_match_hit put fs dir _ (u, rec) rfl hpdf hsize hst1.1 hr]
    have hst3 := r2Fold_match_stable put fs dir L2
      { (L1.foldl (r2ProcessEntry put fs dir) ⟨[], initCache, [], 0, 0, 0, 0⟩) with
        urlMap := setAssoc (L1.foldl (r2ProcessEntry put fs dir)
          ⟨[], initCache, [], 0, 0, 0, 0⟩).urlMap u r.r2_url,
        cachedCount := (L1.foldl (r2ProcessEntry put fs dir)
          ⟨[], initCache, [], 0, 0, 0, 0⟩).cachedCount + 1 }
      hpdf hsize hst1.1 hr
    refine ⟨?_, ?_⟩
    · rw [hst3.2]
      simpa using hst1.2
    · rw [r2Fold_urlMap_stable put fs dir L2 _ ?_]
      · exact lookupAssoc_setAssoc_self _ _ _
      · intro e he heq
        exact hu1.2 (heq ▸ List.mem_map_of_mem Prod.fst he)
  · intro hmis
    unfold upload_downloads
    have := r2Fold_mismatch put fs dir index ⟨[], initCache, [], 0, 0, 0, 0⟩
      hput hpdf hsize hmis ⟨(u, rec), hmem, rfl⟩
    simpa using this

/-- Always-succeeding object-store PUT oracle for the mirror witness. -/
def c5put : String → String → Option String := fun _ key => some ("https://r2/" ++ key)

def c5fs : List (String × Nat) := [("downloads/regulation/a.pdf", 1000)]

def c5index : List (String × IndexRec) := [("http://u1", ⟨"regulation/a.pdf", ""⟩)]

def c5cacheHit : List (String × R2Rec) :=
  [("regulation/a.pdf", ⟨"https://r2/old.pdf", 1000⟩)]

def c5cacheMiss : List (String × R2Rec) :=
  [("regulation/a.pdf", ⟨"https://r2/old.pdf", 500⟩)]

theorem upload_downloads_cache_correct_witness :
    ((upload_downloads c5put c5fs "downloads" c5index c5cacheHit).1.uploads.count
        "regulation/a.pdf" = 0
      ∧ lookupAssoc (upload_downloads c5put c5fs "downloads" c5index c5cacheHit).1.urlMap
          "http://u1" = some "https://r2/old.pdf")
    ∧ (upload_downloads c5put c5fs "downloads" c5index c5cacheMiss).1.uploads.count
        "regulation/a.pdf" = 1 := by
  have h1 := @upload_downloads_cache_correct c5put c5fs "downloads" c5index c5cacheHit
    "http://u1" ⟨"regulation/a.pdf", ""⟩ 1000 (fun _ _ => rfl) (by decide) (by decide)
    (by decide) (by decide)
  have h2 := @upload_downloads_cache_correct c5put c5fs "downloads" c5index c5cacheMiss
    "http://u1" ⟨"regulation/a.pdf", ""⟩ 1000 (fun _ _ => rfl) (by decide) (by decide)
    (by decide) (by decide)
  exact ⟨h1.1 ⟨"https://r2/old.pdf", 1000⟩ (by decide) (by decide), h2.2 (by decide)⟩

/- ================================================================
   Download sync (the per-document loop body of `main`, `src/main.py`
   284-348). The filesystem is a map from path to content; the
   Fetcher's `download_document_file` is an oracle
   `dl : Option (savedPath × content)`. `os.path.normcase` is the
   identity on POSIX.
   ================================================================ -/

/-- `DOWNLOAD_SUBDIRS` of `src/crawler.py`. -/
def DOWNLOAD_SUBDIRS : List (String × String) :=
  [("13", "regulation"), ("14", "normative"), ("15", "specification")]

/-- `get_download_subdir`. -/
def get_download_subdir (category_id : String) : String :=
  (lookupAssoc DOWNLOAD_SUBDIRS category_id).getD "other"

/-- `os.remove`. -/
def fsRemove (fs : List (String × String)) (p : String) : List (String × String) :=
  fs.filter (fun e => decide (e.1 ≠ p))

/-- `os.replace` as a file move: the destination receives the source's
content and the source entry disappears. -/
def fsMove (fs : List (String × String)) (p q : String) : List (String × String) :=
  match lookupAssoc fs p with
  | some content => setAssoc (fsRemove fs p) q content
  | none => fs

theorem fsRemove_cons (e : String × String) (rest : List (String × String))
    (p : String) :
    fsRemove (e :: rest) p =
      if e.1 = p then fsRemove rest p else e :: fsRemove rest p := by
  simp only [fsRemove, List.filter_cons]
  by_cases h : e.1 = p
  · simp [h]
  · simp [h]

theorem lookup_fsRemove_self (fs : List (String × String)) (p : String) :
    lookupAssoc (fsRemove fs p) p = none := by
  induction fs with
  | nil => rfl
  | cons e rest ih =>
    rw [fsRemove_cons]
    by_cases h : e.1 = p
    · rw [if_pos h]
      exact ih
    · rw [if_neg h]
      simp only [lookupAssoc, if_neg h]
      exact ih

theorem lookup_fsRemove_ne (fs : List (String × String)) (p q : String) (h : q ≠ p) :
    lookupAssoc (fsRemove fs p) q = lookupAssoc fs q := by
  induction fs with
  | nil => rfl
  | cons e rest ih =>
    rw [fsRemove_cons]
    by_cases he : e.1 = p
    · rw [if_pos he]
      rw [show lookupAssoc (e :: rest) q = lookupAssoc rest q from by
        simp only [lookupAssoc]
        rw [if_neg (fun heq : e.1 = q => h (heq.symm.trans he))]]
      exact ih
    · rw [if_neg he]
      by_cases heq : e.1 = q
      · simp [lookupAssoc, heq]
      · simp only [lookupAssoc, if_neg heq]
        exact ih

/-- The probe order for an already-downloaded file without an index entry. -/
def probeExts : List String := [".pdf", ".doc", ".docx", ".txt"]

/-- The `existing_local` probe of the sync loop. -/
def probeExisting (fs : List (String × String)) (base : String) : Option String :=
  probeExts.findSome? (fun e =>
    if (lookupAssoc fs (base ++ e)).isSome then some (base ++ e) else none)

/-- `new_path` from the rename branch: the category directory joined with the
filename generated from the document's current fields and the indexed file's
(real, lowercased) extension. -/
def renamedTarget (dir : String) (doc : Document) (oldPath : String) : String :=
  osJoin (osJoin dir (get_download_subdir doc.category_id))
    (generate_filename doc (extOrPdf oldPath))

/-- `old_path` for an index record. -/
def oldPathOf (dir : String) (rec : IndexRec) : String :=
  osJoin dir (pyStrip rec.relative_path)

/-- The per-document body of the download sync step: rename (or dedup) an
indexed existing file to its current canonical name, else adopt a file found
under the expected base path, else invoke the download oracle; the index is
updated with the resulting relative path in every successful case. -/
def syncDocFiles (fs : List (String × String)) (idx : List (String × IndexRec))
    (doc : Document) (dir now : String) (dl : Option (String × String)) :
    List (String × String) × List (String × IndexRec) :=
  let baseDir := osJoin dir (get_download_subdir doc.category_id)
  let saveBasePath := osJoin baseDir (generate_filename doc "")
  let oldRel := pyStrip (((lookupAssoc idx doc.url).map IndexRec.relative_path).getD "")
  let oldPath := if oldRel ≠ "" then osJoin dir oldRel else ""
  if oldPath ≠ "" ∧ (lookupAssoc fs oldPath).isSome then
    let newPath := osJoin baseDir (generate_filename doc (extOrPdf oldPath))
    if normpath oldPath ≠ normpath newPath then
      if (lookupAssoc fs newPath).isSome then
        (fsRemove fs oldPath, setAssoc idx doc.url ⟨relpath newPath dir, now⟩)
      else
        (fsMove fs oldPath newPath, setAssoc idx doc.url ⟨relpath newPath dir, now⟩)
    else
      (fs, setAssoc idx doc.url ⟨relpath oldPath dir, now⟩)
  else
    match probeExisting fs saveBasePath with
    | some existingLocal =>
      (fs, setAssoc idx doc.url ⟨relpath existingLocal dir, now⟩)
    | none =>
      match dl with
      | some saved =>
        (setAssoc fs saved.1 saved.2, setAssoc idx doc.url ⟨relpath saved.1 dir, now⟩)
      | none => (fs, idx)

theorem osJoin_ne_empty {a b : String} (h : b ≠ "") : osJoin a b ≠ "" := by
  have hb : b.data ≠ [] := by
    intro hd
    apply h
    cases b
    simp only at hd
    simp [hd]
  unfold osJoin
  split
  · exact h
  · split
    · exact h
    · split
      · intro he
        have hdata : (a ++ b).data = [] := by rw [he]
        rw [strAppend_data] at hdata
        exact hb (List.append_eq_nil.mp hdata).2
      · intro he
        have hdata : (a ++ "/" ++ b).data = [] := by rw [he]
        rw [strAppend_data] at hdata
        exact hb (List.append_eq_nil.mp hdata).2

theorem syncDocFiles_indexHit (fs : List (String × String))
    (idx : List (String × IndexRec)) (doc : Document) (dir now : String)
    (dl : Option (String × String)) (rec : IndexRec) (c : String)
    (hrec : lookupAssoc idx doc.url = some rec)
    (hrel : pyStrip rec.relative_path ≠ "")
    (hold : lookupAssoc fs (oldPathOf dir rec) = some c) :
    syncDocFiles fs idx doc dir now dl =
      if normpath (oldPathOf dir rec)
          ≠ normpath (renamedTarget dir doc (oldPathOf dir rec)) then
        if (lookupAssoc fs (renamedTarget dir doc (oldPathOf dir rec))).isSome then
          (fsRemove fs (oldPathOf dir rec),
           setAssoc idx doc.url
             ⟨relpath (renamedTarget dir doc (oldPathOf dir rec)) dir, now⟩)
        else
          (fsMove fs (oldPathOf dir rec) (renamedTarget dir doc (oldPathOf dir rec)),
           setAssoc idx doc.url
             ⟨relpath (renamedTarget dir doc (oldPathOf dir rec)) dir, now⟩)
      else (fs, setAssoc idx doc.url ⟨relpath (oldPathOf dir rec) dir, now⟩) := by
  have hjoin : osJoin dir (pyStrip rec.relative_path) ≠ "" := osJoin_ne_empty hrel
  have hold' : (lookupAssoc fs (osJoin dir (pyStrip rec.relative_path))).isSome := by
    rw [show lookupAssoc fs (osJoin dir (pyStrip rec.relative_path)) = some c from hold]
    rfl
  simp only [syncDocFiles, hrec, Option.map_some', Option.getD_some, if_pos hrel,
    if_pos (And.intro hjoin hold'), oldPathOf, renamedTarget]

/-- C2: after the download sync step, a processed document whose url had an
index entry pointing at an existing local file has exactly one file on disk,
named by the current filename rule: when the current name differs from the
indexed file's, the file is renamed to the new path; when a file already
exists at the new path, the stale old file is deleted and the new path's
content is not overwritten; paths other than the old and new ones are
untouched; and the index records the resulting path. (The path-normalization
hypotheses say the two paths are already in normal form, which holds for
every path the program builds by joining clean components.) -/
theorem sync_rename_no_data_loss (fs : List (String × String))
    (idx : List (String × IndexRec)) (doc : Document) (dir now : String)
    (dl : Option (String × String)) (rec : IndexRec) (c : String)
    (hrec : lookupAssoc idx doc.url = some rec)
    (hrel : pyStrip rec.relative_path ≠ "")
    (hold : lookupAssoc fs (oldPathOf dir rec) = some c)
    (hnormOld : normpath (oldPathOf dir rec) = oldPathOf dir rec)
    (hnormNew : normpath (renamedTarget dir doc (oldPathOf dir rec))
      = renamedTarget dir doc (oldPathOf dir rec)) :
    (lookupAssoc (syncDocFiles fs idx doc dir now dl).1
        (renamedTarget dir doc (oldPathOf dir rec))).isSome
    ∧ (oldPathOf dir rec ≠ renamedTarget dir doc (oldPathOf dir rec) →
        lookupAssoc (syncDocFiles fs idx doc dir now dl).1 (oldPathOf dir rec) = none)
    ∧ (∀ c', lookupAssoc fs (renamedTarget dir doc (oldPathOf dir rec)) = some c' →
        lookupAssoc (syncDocFiles fs idx doc dir now dl).1
          (renamedTarget dir doc (oldPathOf dir rec)) = some c')
    ∧ (oldPathOf dir rec ≠ renamedTarget dir doc (oldPathOf dir rec) →
        lookupAssoc fs (renamedTarget dir doc (oldPathOf dir rec)) = none →
        lookupAssoc (syncDocFiles fs idx doc dir now dl).1
          (renamedTarget dir doc (oldPathOf dir rec)) = some c)
    ∧ lookupAssoc (syncDocFiles fs idx doc dir now dl).2 doc.url
        = some ⟨relpath (renamedTarget dir doc (oldPathOf dir rec)) dir, now⟩
    ∧ (∀ q, q ≠ oldPathOf dir rec → q ≠ renamedTarget dir doc (oldPathOf dir rec) →
        lookupAssoc (syncDocFiles fs idx doc dir now dl).1 q = lookupAssoc fs q) := by
  rw [syncDocFiles_indexHit fs idx doc dir now dl rec c hrec hrel hold, hnormOld, hnormNew]
  by_cases heq : oldPathOf dir rec = renamedTarget dir doc (oldPathOf dir rec)
  · rw [if_neg (fun hne => hne heq)]
    refine ⟨?_, ?_, ?_, ?_, ?_, ?_⟩
    · rw [← heq, hold]
      rfl
    · intro hne
      exact absurd heq hne
    · intro c' hc'
      exact hc'
    · intro hne
      exact absurd heq hne
    · rw [← heq]
      exact lookupAssoc_setAssoc_self _ _ _
    · intro q _ _
      rfl
  · rw [if_pos heq]
    have hnw_ne_old : renamedTarget dir doc (oldPathOf dir rec) ≠ oldPathOf dir rec :=
      Ne.symm heq
    by_cases hcol : (lookupAssoc fs (renamedTarget dir doc (oldPathOf dir rec))).isSome
    · rw [if_pos hcol]
      refine ⟨?_, ?_, ?_, ?_, ?_, ?_⟩
      · rw [lookup_fsRemove_ne _ _ _ hnw_ne_old]
        exact hcol
      · intro _
        exact lookup_fsRemove_self _ _
      · intro c' hc'
        rw [lookup_fsRemove_ne _ _ _ hnw_ne_old]
        exact hc'
      · intro _ hnone
        rw [hnone] at hcol
        cases hcol
      · exact lookupAssoc_setAssoc_self _ _ _
      · intro q hq1 _
        exact lookup_fsRemove_ne _ _ _ hq1
    · rw [if_neg hcol]
      have hmove : fsMove fs (oldPathOf dir rec) (renamedTarget dir doc (oldPathOf dir rec))
          = setAssoc (fsRemove fs (oldPathOf dir rec))
              (renamedTarget dir doc (oldPathOf dir rec)) c := by
        simp [fsMove, hold]
      rw [hmove]
      refine ⟨?_, ?_, ?_, ?_, ?_, ?_⟩
      · rw [lookupAssoc_setAssoc_self]
        rfl
      · intro _
        rw [lookupAssoc_setAssoc_ne _ _ _ _ hnw_ne_old]
        exact lookup_fsRemove_self _ _
      · intro c' hc'
        rw [hc'] at hcol
        exact absurd rfl hcol
      · intro _ _
        exact lookupAssoc_setAssoc_self _ _ _
      · exact lookupAssoc_setAssoc_self _ _ _
      · intro q hq1 hq2
        rw [lookupAssoc_setAssoc_ne _ _ _ _ (Ne.symm hq2)]
        exact lookup_fsRemove_ne _ _ _ hq1

/-- Concrete rename scenario: the document's title changed, so the indexed
file's name no longer matches the current rule. -/
def c2Doc : Document :=
  { title := "NewTitle", url := "http://d/1", category := "c", category_id := "13",
    doc_number := "", office_unit := "" }

def c2Rec : IndexRec := ⟨"regulation/Old.pdf", ""⟩

def c2fs : List (String × String) := [("downloads/regulation/Old.pdf", "DATA")]

def c2idx : List (String × IndexRec) := [("http://d/1", c2Rec)]

theorem sync_rename_no_data_loss_witness :
    lookupAssoc (syncDocFiles c2fs c2idx c2Doc "downloads" "T" none).1
        (renamedTarget "downloads" c2Doc (oldPathOf "downloads" c2Rec)) = some "DATA"
    ∧ lookupAssoc (syncDocFiles c2fs c2idx c2Doc "downloads" "T" none).1
        (oldPathOf "downloads" c2Rec) = none
    ∧ lookupAssoc (syncDocFiles c2fs c2idx c2Doc "downloads" "T" none).2 c2Doc.url
        = some ⟨relpath (renamedTarget "downloads" c2Doc (oldPathOf "downloads" c2Rec))
            "downloads", "T"⟩ := by
  have h := sync_rename_no_data_loss c2fs c2idx c2Doc "downloads" "T" none c2Rec "DATA"
    (by decide) (by decide) (by decide) (by decide) (by decide)
  exact ⟨h.2.2.2.1 (by decide) (by decide), h.2.1 (by decide), h.2.2.2.2.1⟩
